import Mathlib

set_option maxRecDepth 8000

/-!
# Verification of the bot-protocol engine (parser, builder, state tracker)

Shallow embedding of `lib/parser.js`, `lib/builder.js` and the state tracker
(`track` / `timeout` / `cleanup` / `checkTimeouts`) of the bot-protocol
repository.  Strings are modelled as `List Char`; JavaScript regular
expressions are translated to explicit executable matchers with the same
acceptance semantics; machine time (`Date.now()`, ISO timestamps) is modelled
as integer milliseconds passed in explicitly; the random `nanoid()` suffix is
modelled as an explicit oracle parameter.
-/

/-- Strings of the JavaScript program, modelled as lists of characters. -/
abbrev Str := List Char

/-- Convert a Lean string literal to the model representation. -/
def str (s : String) : Str := s.data

/-- JavaScript `\s` (whitespace class used by `trim`, `\s`, `\S`), restricted
to the code points that can actually occur in this development: the ASCII
whitespace characters plus NBSP, LINE/PARAGRAPH SEPARATOR and BOM.  (The
remaining exotic Unicode space code points of `\s` never appear in any string
handled here.) -/
def jsIsSpace (c : Char) : Bool :=
  c.toNat = 0x20 || c.toNat = 0x09 || c.toNat = 0x0a || c.toNat = 0x0d ||
  c.toNat = 0x0b || c.toNat = 0x0c || c.toNat = 0xa0 ||
  c.toNat = 0x2028 || c.toNat = 0x2029 || c.toNat = 0xfeff

/-- JavaScript regex line terminators (the characters `.` does not match). -/
def jsIsLineTerm (c : Char) : Bool :=
  c.toNat = 0x0a || c.toNat = 0x0d || c.toNat = 0x2028 || c.toNat = 0x2029

/-- `[0-9]`, JavaScript `\d`. -/
def jsIsDigit (c : Char) : Bool :=
  0x30 ≤ c.toNat && c.toNat ≤ 0x39

/-- `[A-Za-z]`. -/
def jsIsAlpha (c : Char) : Bool :=
  (0x41 ≤ c.toNat && c.toNat ≤ 0x5a) || (0x61 ≤ c.toNat && c.toNat ≤ 0x7a)

/-- JavaScript `\w`: ASCII letters, digits and underscore. -/
def jsIsWordChar (c : Char) : Bool :=
  jsIsAlpha c || jsIsDigit c || c.toNat = 0x5f

/-- ASCII lower-casing of a character, as `String.prototype.toLowerCase`
acts on the ASCII range (the only range reaching it here, since parsed
field keys match `[A-Za-z]+`). -/
def jsToLowerChar (c : Char) : Char :=
  if 0x41 ≤ c.toNat ∧ c.toNat ≤ 0x5a then Char.ofNat (c.toNat + 32) else c

/-- `toLowerCase` on a whole string. -/
def jsToLower (s : Str) : Str := s.map jsToLowerChar

/-- `String.prototype.trim`: strip `\s` from both ends. -/
def jsTrim (s : Str) : Str :=
  ((s.dropWhile jsIsSpace).reverse.dropWhile jsIsSpace).reverse

/-- `content.split('\n')` — split at every newline, keeping empty pieces. -/
def splitLines : Str → List Str
  | [] => [[]]
  | c :: rest =>
    if c = '\n' then [] :: splitLines rest
    else
      match splitLines rest with
      | [] => [[c]]
      | l :: ls => (c :: l) :: ls

/-- `array.join('\n')`. -/
def joinLines : List Str → Str
  | [] => []
  | [l] => l
  | l :: ls => l ++ '\n' :: joinLines ls

/-- Numeric value of a decimal digit character. -/
def digitVal (c : Char) : Nat := c.toNat - '0'.toNat

/-- `parseInt(s, 10)` on a string of decimal digits. -/
def digitsToNat (s : Str) : Nat :=
  s.foldl (fun n c => n * 10 + digitVal c) 0

/-- Fuel-driven core of the decimal rendering (structural recursion so that
the kernel can evaluate it; `fuel > n` always suffices). -/
def natToStrCore : Nat → Nat → Str
  | 0, _ => []
  | fuel + 1, n =>
    if n < 10 then [Nat.digitChar n]
    else natToStrCore fuel (n / 10) ++ [Nat.digitChar (n % 10)]

/-- Decimal rendering of a natural number (JavaScript `${n}` for an
integral non-negative Number). -/
def natToStr (n : Nat) : Str := natToStrCore (n + 1) n

/-- Decimal rendering of an integer (JavaScript `${i}` for an integral
Number). -/
def intToStr (i : Int) : Str :=
  if i < 0 then '-' :: natToStr i.natAbs else natToStr i.toNat

/-- JavaScript truthiness of a possibly-absent string field
(`undefined`/`null` and `""` are falsy). -/
def truthy : Option Str → Bool
  | none => false
  | some s => !s.isEmpty

/-! ## Parser model (`lib/parser.js`) -/

/-- `VALID_TYPES` (parser.js line 6). -/
def VALID_TYPES : List Str :=
  [str "REQUEST", str "RESPONSE", str "CLARIFY", str "HANDOFF", str "BROADCAST"]

/-- `VALID_STATUSES` (parser.js line 7). -/
def VALID_STATUSES : List Str := [str "done", str "partial", str "failed"]

/-- `VALID_PRIORITIES` (parser.js line 8). -/
def VALID_PRIORITIES : List Str := [str "low", str "normal", str "high"]

/-- A parsed `current/max` depth pair (parser.js lines 104–107).  JavaScript
integral Numbers are modelled as `Int`. -/
structure DepthPair where
  current : Int
  max : Int
deriving DecidableEq

/-- The mutable `result` object during field accumulation (parser.js lines
47–63), before the depth string is replaced by a pair.  `none` models both
`null` and a never-assigned field; `some ""` models a field assigned an empty
trimmed value (both are falsy in JavaScript). -/
structure FieldAcc where
  «from» : Option Str := none
  requestId : Option Str := none
  task : Option Str := none
  result : Option Str := none
  context : Option Str := none
  depth : Option Str := none
  callback : Option Str := none
  priority : Option Str := none
  status : Option Str := none
  question : Option Str := none
  message : Option Str := none
  meta : List (Str × Str) := []
deriving DecidableEq

/-- The parsed protocol message returned by `parse` (parser.js line 120). -/
structure Message where
  type : Str
  «to» : Str
  «from» : Option Str
  requestId : Option Str
  task : Option Str
  result : Option Str
  context : Option Str
  callback : Option Str
  priority : Option Str
  status : Option Str
  question : Option Str
  message : Option Str
  depth : Option DepthPair
  meta : List (Str × Str)
  raw : Str
deriving DecidableEq

/-- One attempt of `/```([^`]+)```/` at the current position: three backticks,
a maximal non-empty run of non-backticks, three backticks. -/
def tryBlockAt (s : Str) : Option Str :=
  match s with
  | c1 :: c2 :: c3 :: rest =>
    if c1 = '`' ∧ c2 = '`' ∧ c3 = '`' then
      let cap := rest.takeWhile (fun c => c ≠ '`')
      if cap ≠ [] ∧ (rest.drop cap.length).take 3 = ['`', '`', '`'] then some cap
      else none
    else none
  | _ => none

/-- Leftmost match of `rawText.match(/```([^`]+)```/s)` (parser.js line 21):
try every start position left to right. -/
def findBlock : Str → Option Str
  | [] => none
  | c :: rest =>
    match tryBlockAt (c :: rest) with
    | some cap => some cap
    | none => findBlock rest

/-- Header match `/^\[(\w+)\s*→\s*@(\S+)\]$/` (parser.js line 34), returning
`(type, recipient)`.  The greedy `(\S+)\]$` forces the capture to be exactly
the characters between `@` and the final `]`, all non-whitespace. -/
def headerMatch (line : Str) : Option (Str × Str) :=
  match line with
  | [] => none
  | c0 :: rest =>
    if c0 = '[' then
      let ty := rest.takeWhile jsIsWordChar
      if ty = [] then none
      else
        match (rest.drop ty.length).dropWhile jsIsSpace with
        | [] => none
        | c1 :: r3 =>
          if c1 = '→' then
            match r3.dropWhile jsIsSpace with
            | [] => none
            | c2 :: r5 =>
              if c2 = '@' then
                if r5.getLast? = some ']' ∧ r5.dropLast ≠ [] ∧
                    (∀ c ∈ r5.dropLast, jsIsSpace c = false) then
                  some (ty, r5.dropLast)
                else none
              else none
          else none
    else none

/-- Key–value line match `/^([A-Za-z]+):\s*(.*)$/` (parser.js line 72):
a non-empty run of ASCII letters, a colon, a maximal run of whitespace, and a
remainder free of line terminators (`.` does not match them and `$` only
matches at the very end). -/
def kvMatch (line : Str) : Option (Str × Str) :=
  let key := line.takeWhile jsIsAlpha
  if key = [] then none
  else
    match line.drop key.length with
    | [] => none
    | c0 :: tail =>
      if c0 = ':' then
        let value := tail.dropWhile jsIsSpace
        if ∀ c ∈ value, jsIsLineTerm c = false then some (key, value) else none
      else none

/-- The known-field list of `saveField` (parser.js lines 130–133). -/
def knownFields : List Str :=
  [str "from", str "requestid", str "task", str "result", str "context",
   str "depth", str "callback", str "priority", str "status", str "question",
   str "message"]

/-- `result.meta[key] = cleanValue`: JavaScript object assignment — overwrite
in place if the key exists, otherwise append. -/
def metaSet (m : List (Str × Str)) (k v : Str) : List (Str × Str) :=
  if m.any (fun p => p.1 = k) then
    m.map (fun p => if p.1 = k then (k, v) else p)
  else m ++ [(k, v)]

/-- The known-field assignment `result[normalizedKey] = cleanValue` together
with the `requestId` special case and the `status`/`priority` enum validation
(parser.js lines 140–154). -/
def saveKnown (r : FieldAcc) (normalizedKey cleanValue : Str) : FieldAcc :=
  if normalizedKey = str "requestid" then { r with requestId := some cleanValue }
  else if normalizedKey = str "from" then { r with «from» := some cleanValue }
  else if normalizedKey = str "task" then { r with task := some cleanValue }
  else if normalizedKey = str "result" then { r with result := some cleanValue }
  else if normalizedKey = str "context" then { r with context := some cleanValue }
  else if normalizedKey = str "depth" then { r with depth := some cleanValue }
  else if normalizedKey = str "callback" then { r with callback := some cleanValue }
  else if normalizedKey = str "priority" then
    { r with priority := if VALID_PRIORITIES.contains cleanValue then some cleanValue else none }
  else if normalizedKey = str "status" then
    { r with status := if VALID_STATUSES.contains cleanValue then some cleanValue else none }
  else if normalizedKey = str "question" then { r with question := some cleanValue }
  else { r with message := some cleanValue }

/-- `saveField(result, key, value)` (parser.js lines 127–159).  The key passed
in is already lower-cased by the caller (line 82). -/
def saveField (r : FieldAcc) (key value : Str) : FieldAcc :=
  let cleanValue := jsTrim value
  let normalizedKey := (jsToLower key).filter (fun c => ¬(c = '-' ∨ c = '_'))
  if knownFields.contains normalizedKey then saveKnown r normalizedKey cleanValue
  else { r with meta := metaSet r.meta key cleanValue }

/-- The key–value scanning loop (parser.js lines 65–93).  `cur` is the pending
`(currentKey, currentValue)` pair, the value accumulated as a list of lines. -/
def fieldLoop (r : FieldAcc) (cur : Option (Str × List Str)) : List Str → FieldAcc
  | [] =>
    match cur with
    | none => r
    | some (k, vs) => saveField r k (joinLines vs)
  | line :: rest =>
    match kvMatch line with
    | some (key, value) =>
      let r' :=
        match cur with
        | none => r
        | some (k, vs) => saveField r k (joinLines vs)
      fieldLoop r' (some (jsToLower key, [value])) rest
    | none =>
      match cur with
      | none => fieldLoop r none rest
      | some (k, vs) => fieldLoop r (some (k, vs ++ [line])) rest

/-- Depth string match `/^(\d+)\/(\d+)$/` with `parseInt` (parser.js lines
102–107). -/
def depthMatch (s : Str) : Option DepthPair :=
  let d1 := s.takeWhile jsIsDigit
  if d1 = [] then none
  else
    match s.drop d1.length with
    | [] => none
    | c0 :: d2 =>
      if c0 = '/' then
        if d2 ≠ [] ∧ (∀ c ∈ d2, jsIsDigit c) then
          some ⟨Int.ofNat (digitsToNat d1), Int.ofNat (digitsToNat d2)⟩
        else none
      else none

/-- Final validation and assembly (parser.js lines 95–120): required `from` /
`requestId`, depth fix-up, type-specific required fields.  (When the depth
field holds the empty string — falsy — the JavaScript code leaves it in place
rather than replacing it; an empty-string depth and a `null` depth are both
falsy and observationally absent, so both are modelled as `none`.) -/
def finalize (ty «to» rawText : Str) (f : FieldAcc) : Option Message :=
  if truthy f.«from» = false ∨ truthy f.requestId = false then none
  else
    let d : Option DepthPair :=
      match f.depth with
      | none => none
      | some s => if s = [] then none else depthMatch s
    if ty = str "REQUEST" ∧ truthy f.task = false then none
    else if ty = str "RESPONSE" ∧ truthy f.result = false ∧ truthy f.status = false then none
    else if ty = str "CLARIFY" ∧ truthy f.question = false then none
    else if ty = str "HANDOFF" ∧ truthy f.task = false then none
    else if ty = str "BROADCAST" ∧ truthy f.message = false then none
    else some {
      type := ty, «to» := «to», «from» := f.«from», requestId := f.requestId,
      task := f.task, result := f.result, context := f.context,
      callback := f.callback, priority := f.priority, status := f.status,
      question := f.question, message := f.message, depth := d,
      meta := f.meta, raw := rawText }

/-- `parse(rawText)` (parser.js lines 15–121). -/
def parse (rawText : Str) : Option Message :=
  if rawText = [] then none
  else
    match findBlock rawText with
    | none => none
    | some blk =>
      match splitLines (jsTrim blk) with
      | [] => none
      | l0 :: rest =>
        match headerMatch l0 with
        | none => none
        | some (ty, «to») =>
          if VALID_TYPES.contains ty then
            finalize ty «to» rawText (fieldLoop {} none rest)
          else none

/-! ## Builder model (`lib/builder.js`)

Thrown errors are modelled by `Except.error`; the random `nanoid()` suffix is
an explicit oracle parameter `gen`. -/

/-- `validateRequired(fields, messageType)` (builder.js lines 157–163):
object-literal entries in insertion order, first falsy field throws. -/
def validateRequired (fields : List (String × Option Str)) (messageType : String) :
    Except Str Unit :=
  match fields with
  | [] => .ok ()
  | (key, value) :: rest =>
    if truthy value = false then
      .error (str messageType ++ str " requires field: " ++ str key)
    else validateRequired rest messageType

/-- The depth-limit error text (builder.js lines 20, 70, 93). -/
def depthErr (messageType : String) (d : DepthPair) : Str :=
  str "Depth limit reached (" ++ intToStr d.current ++ str "/" ++ intToStr d.max ++
  str "). Cannot send " ++ str messageType ++ str ". Must send RESPONSE instead."

/-- `generateRequestId(botname)` (builder.js lines 132–135); `suffix` stands
for the random `nanoid()` output. -/
def generateRequestId (botname : Str) (suffix : Str) : Str :=
  ((jsToLower botname).filter
    (fun c => (0x61 ≤ c.toNat ∧ c.toNat ≤ 0x7a) ∨ (0x30 ≤ c.toNat ∧ c.toNat ≤ 0x39)))
  ++ '-' :: suffix

/-- An optional `if (x) message += \`Label: ${x}\n\`` segment. -/
def optSeg (label : String) (v : Option Str) : Str :=
  if truthy v then str label ++ v.getD [] ++ ['\n'] else []

/-- The `Depth: current/max` line present in every built message. -/
def depthLine (d : DepthPair) : Str :=
  str "Depth: " ++ intToStr d.current ++ str "/" ++ intToStr d.max ++ ['\n']

/-- `buildRequest` (builder.js lines 12–34). -/
def buildRequest («to» «from» requestId task context : Option Str)
    (depth : Option DepthPair) (callback priority : Option Str) (gen : Str) :
    Except Str Str :=
  match validateRequired [("to", «to»), ("from", «from»), ("task", task)] "REQUEST" with
  | .error e => .error e
  | .ok _ =>
    let id := if truthy requestId then requestId.getD [] else generateRequestId («from».getD []) gen
    let d := depth.getD ⟨1, 5⟩
    if d.current = d.max then .error (depthErr "REQUEST" d)
    else .ok (str "```\n[REQUEST → @" ++ «to».getD [] ++ str "]\n"
      ++ str "From: " ++ «from».getD [] ++ ['\n']
      ++ str "RequestId: " ++ id ++ ['\n']
      ++ str "Task: " ++ task.getD [] ++ ['\n']
      ++ optSeg "Context: " context
      ++ depthLine d
      ++ optSeg "Callback: " callback
      ++ optSeg "Priority: " priority
      ++ str "```")

/-- `buildResponse` (builder.js lines 39–58). -/
def buildResponse («to» «from» requestId status result context : Option Str)
    (depth : Option DepthPair) : Except Str Str :=
  match validateRequired [("to", «to»), ("from", «from»), ("requestId", requestId)] "RESPONSE" with
  | .error e => .error e
  | .ok _ =>
    if truthy status = false ∧ truthy result = false then
      .error (str "RESPONSE requires either status or result")
    else
      let d := depth.getD ⟨1, 5⟩
      .ok (str "```\n[RESPONSE → @" ++ «to».getD [] ++ str "]\n"
        ++ str "From: " ++ «from».getD [] ++ ['\n']
        ++ str "RequestId: " ++ requestId.getD [] ++ ['\n']
        ++ optSeg "Status: " status
        ++ optSeg "Result: " result
        ++ optSeg "Context: " context
        ++ depthLine d
        ++ str "```")

/-- `buildClarify` (builder.js lines 63–81). -/
def buildClarify («to» «from» requestId question : Option Str)
    (depth : Option DepthPair) : Except Str Str :=
  match validateRequired
      [("to", «to»), ("from", «from»), ("requestId", requestId), ("question", question)]
      "CLARIFY" with
  | .error e => .error e
  | .ok _ =>
    let d := depth.getD ⟨1, 5⟩
    if d.current = d.max then .error (depthErr "CLARIFY" d)
    else .ok (str "```\n[CLARIFY → @" ++ «to».getD [] ++ str "]\n"
      ++ str "From: " ++ «from».getD [] ++ ['\n']
      ++ str "RequestId: " ++ requestId.getD [] ++ ['\n']
      ++ str "Question: " ++ question.getD [] ++ ['\n']
      ++ depthLine d
      ++ str "```")

/-- `buildHandoff` (builder.js lines 86–107). -/
def buildHandoff («to» «from» requestId task context : Option Str)
    (depth : Option DepthPair) (callback priority : Option Str) :
    Except Str Str :=
  match validateRequired
      [("to", «to»), ("from", «from»), ("requestId", requestId), ("task", task)]
      "HANDOFF" with
  | .error e => .error e
  | .ok _ =>
    let d := depth.getD ⟨1, 5⟩
    if d.current = d.max then .error (depthErr "HANDOFF" d)
    else .ok (str "```\n[HANDOFF → @" ++ «to».getD [] ++ str "]\n"
      ++ str "From: " ++ «from».getD [] ++ ['\n']
      ++ str "RequestId: " ++ requestId.getD [] ++ ['\n']
      ++ str "Task: " ++ task.getD [] ++ ['\n']
      ++ optSeg "Context: " context
      ++ depthLine d
      ++ optSeg "Callback: " callback
      ++ optSeg "Priority: " priority
      ++ str "```")

/-- `buildBroadcast` (builder.js lines 112–127). -/
def buildBroadcast («from» requestId message context : Option Str)
    (depth : Option DepthPair) (gen : Str) : Except Str Str :=
  match validateRequired [("from", «from»), ("message", message)] "BROADCAST" with
  | .error e => .error e
  | .ok _ =>
    let id := if truthy requestId then requestId.getD [] else generateRequestId («from».getD []) gen
    let d := depth.getD ⟨1, 5⟩
    .ok (str "```\n[BROADCAST → @all]\n"
      ++ str "From: " ++ «from».getD [] ++ ['\n']
      ++ str "RequestId: " ++ id ++ ['\n']
      ++ str "Message: " ++ message.getD [] ++ ['\n']
      ++ optSeg "Context: " context
      ++ depthLine d
      ++ str "```")

/-! ## State tracker model (`lib/state.js` content of builder.js lines 174–410)

The persisted JSON object is modelled as an association list with unique keys;
`Date.now()` / `new Date().toISOString()` timestamps are modelled as a single
integer-millisecond instant passed in explicitly. -/

/-- One history entry (absent JSON keys are `none`). -/
structure HistEntry where
  type : Str
  «from» : Option Str := none
  «to» : Option Str := none
  status : Option Str := none
  «at» : Int := 0
  content : Option Str := none
  reason : Option Str := none
deriving DecidableEq

/-- One conversation record (state.js lines 251–262). -/
structure Conv where
  type : Str
  «to» : Str
  «from» : Option Str
  task : Option Str
  status : Str
  depth : Int
  createdAt : Int
  updatedAt : Int
  lastType : Str
  history : List HistEntry
deriving DecidableEq

/-- The persisted mapping `requestId → Conv` (insertion-ordered, unique keys,
like a JavaScript object). -/
abbrev BPState := List (Str × Conv)

/-- `state[requestId]` lookup. -/
def lookupConv (st : BPState) (rid : Str) : Option Conv :=
  (st.find? (fun p => decide (p.1 = rid))).map (fun p => p.2)

/-- JavaScript `a || b` on string fields. -/
def jsOrStr (a b : Option Str) : Option Str := if truthy a then a else b

/-- `DEFAULT_TIMEOUTS` (state.js lines 189–194). -/
def DEFAULT_TIMEOUTS : List (Str × Int) :=
  [(str "CLARIFY", 10 * 60 * 1000), (str "REQUEST", 30 * 60 * 1000),
   (str "HANDOFF", 30 * 60 * 1000), (str "BROADCAST", 5 * 60 * 1000)]

/-- `DEFAULT_TIMEOUTS[t] || DEFAULT_TIMEOUTS.REQUEST` (state.js line 390). -/
def timeoutWindow (t : Str) : Int :=
  match (DEFAULT_TIMEOUTS.find? (fun p => decide (p.1 = t))).map (fun p => p.2) with
  | some w => w
  | none => 30 * 60 * 1000

/-- The history entry `track` pushes (state.js lines 278–285). -/
def trackEntry (now : Int) (msg : Message) : HistEntry :=
  { type := msg.type, «from» := msg.«from», «to» := some msg.«to»,
    status := msg.status, «at» := now,
    content := jsOrStr msg.task (jsOrStr msg.result (jsOrStr msg.question msg.message)) }

/-- The record created for a new conversation (state.js lines 251–262),
including the pushed history entry. -/
def newConv (now : Int) (msg : Message) : Conv :=
  { type := msg.type, «to» := msg.«to», «from» := msg.«from»,
    task := jsOrStr msg.task (jsOrStr msg.question msg.message),
    status :=
      if msg.type = str "RESPONSE" then
        (jsOrStr msg.status (some (str "done"))).getD []
      else str "open",
    depth := match msg.depth with | some d => d.current | none => 1,
    createdAt := now, updatedAt := now, lastType := msg.type,
    history := [trackEntry now msg] }

/-- The in-place update of an existing conversation (state.js lines 265–285),
including the pushed history entry. -/
def updatedConv (now : Int) (msg : Message) (conv : Conv) : Conv :=
  let conv :=
    if msg.type = str "RESPONSE" then
      { conv with status := (jsOrStr msg.status (some (str "done"))).getD [] }
    else if msg.type = str "CLARIFY" then
      { conv with status := str "clarifying" }
    else conv
  { conv with
    updatedAt := now, lastType := msg.type,
    history := conv.history ++ [trackEntry now msg] }

/-- `track(parsedMessage)` at instant `now` (state.js lines 242–290). -/
def trackStep (now : Int) (st : BPState) (msg : Message) : BPState :=
  let rid := msg.requestId.getD []
  match lookupConv st rid with
  | none => st ++ [(rid, newConv now msg)]
  | some _ =>
    st.map (fun p =>
      if p.1 = rid then (p.1, updatedConv now msg p.2) else p)

/-- `timeout(requestId, reason)` at instant `now` (state.js lines 326–344):
no-op on the state when the identifier is unknown. -/
def timeoutOp (now : Int) (st : BPState) (rid : Str) (reason : Str) : BPState :=
  st.map (fun p =>
    if p.1 = rid then
      (p.1, { p.2 with
               status := str "timeout", updatedAt := now,
               history := p.2.history ++
                 [{ type := str "TIMEOUT", reason := some reason, «at» := now }] })
    else p)

/-- The removal condition of `cleanup` (state.js line 360): old **and** status
in `['done', 'failed', 'timeout']`. -/
def removeCond (now olderThanMs : Int) (p : Str × Conv) : Bool :=
  decide (now - p.2.updatedAt > olderThanMs ∧
    (p.2.status = str "done" ∨ p.2.status = str "failed" ∨ p.2.status = str "timeout"))

/-- `cleanup(olderThanMs)` at instant `now` (state.js lines 349–372): deleting
entries while iterating an object snapshot amounts to filtering; returns the
removal count and the remaining state. -/
def cleanup (now olderThanMs : Int) : BPState → Nat × BPState
  | [] => (0, [])
  | p :: rest =>
    let r := cleanup now olderThanMs rest
    if removeCond now olderThanMs p then (r.1 + 1, r.2) else (r.1, p :: r.2)

/-- The flagging condition of `checkTimeouts` (state.js lines 383–393),
evaluated on the snapshot record. -/
def flaggedEntry (now : Int) (p : Str × Conv) : Bool :=
  decide ((p.2.status = str "open" ∨ p.2.status = str "clarifying") ∧
    now - p.2.updatedAt >
      timeoutWindow (if p.2.lastType ≠ [] then p.2.lastType else p.2.type))

/-- The timeout reason `No response after X minutes` (state.js line 394);
`Math.floor(age/1000/60)` on a positive age is integer division. -/
def reasonFor (now : Int) (p : Str × Conv) : Str :=
  str "No response after " ++ intToStr ((now - p.2.updatedAt) / 60000) ++ str " minutes"

/-- The `checkTimeouts` sweep loop (state.js lines 382–397): iterates the
snapshot entries, calling `timeout()` against the evolving state. -/
def checkLoop (now : Int) : List (Str × Conv) → List Str × BPState → List Str × BPState
  | [], acc => acc
  | p :: rest, acc =>
    if flaggedEntry now p then
      checkLoop now rest (acc.1 ++ [p.1], timeoutOp now acc.2 p.1 (reasonFor now p))
    else checkLoop now rest acc

/-- `checkTimeouts()` at instant `now` (state.js lines 377–400). -/
def checkTimeouts (now : Int) (st : BPState) : List Str × BPState :=
  checkLoop now st ([], st)

/-- The transform `timeout()` applies to the looked-up record, expressed on a
snapshot entry (used to characterise the `checkTimeouts` sweep). -/
def timedConv (now : Int) (p : Str × Conv) : Str × Conv :=
  (p.1, { p.2 with
           status := str "timeout", updatedAt := now,
           history := p.2.history ++
             [{ type := str "TIMEOUT", reason := some (reasonFor now p), «at» := now }] })

/-! ## Concrete instances used by witnesses and counterexamples -/

/-- A wire-format REQUEST accepted by the parser (the spec §8 example). -/
def rawReqEx : Str :=
  str "```\n[REQUEST → @Mantis]\nFrom: Lotbot\nRequestId: lotbot-abc123\nTask: Check the weather in Paris\nDepth: 1/5\n```"

/-- A wire-format REQUEST whose depth field is the over-limit pair `7/5`. -/
def rawDepth75 : Str :=
  str "```\n[REQUEST → @M]\nFrom: L\nRequestId: r\nTask: t\nDepth: 7/5\n```"

/-- A wire-format REQUEST carrying an unknown mixed-case field `XFeature`. -/
def rawXFeature : Str :=
  str "```\n[REQUEST → @M]\nFrom: L\nRequestId: r\nTask: t\nXFeature: v\n```"

/-- The Message value `parse` returns on `rawReqEx`. -/
def msgReqEx : Message :=
  { type := str "REQUEST", «to» := str "Mantis", «from» := some (str "Lotbot"),
    requestId := some (str "lotbot-abc123"),
    task := some (str "Check the weather in Paris"), result := none,
    context := none, callback := none, priority := none, status := none,
    question := none, message := none, depth := some ⟨1, 5⟩, meta := [],
    raw := rawReqEx }

/-- The Message value `parse` returns on `rawXFeature`. -/
def msgXFeatureEx : Message :=
  { type := str "REQUEST", «to» := str "M", «from» := some (str "L"),
    requestId := some (str "r"), task := some (str "t"), result := none,
    context := none, callback := none, priority := none, status := none,
    question := none, message := none, depth := none,
    meta := [(str "xfeature", str "v")], raw := rawXFeature }

/-- A parsed REQUEST message (depth 1/5) for conversation `r-1`. -/
def msgA : Message :=
  { type := str "REQUEST", «to» := str "Bob", «from» := some (str "Ann"),
    requestId := some (str "r-1"), task := some (str "T"), result := none,
    context := none, callback := none, priority := none, status := none,
    question := none, message := none, depth := some ⟨1, 5⟩, meta := [],
    raw := [] }

/-- A follow-up CLARIFY message on the same conversation, at depth 2/5. -/
def msgB : Message :=
  { msgA with
    type := str "CLARIFY", question := some (str "Q"), depth := some ⟨2, 5⟩ }

/-- An open REQUEST conversation record last updated at time 0 whose most
recent message was a CLARIFY. -/
def convClarifyOpen : Conv :=
  { type := str "REQUEST", «to» := str "Bob", «from» := some (str "Ann"),
    task := some (str "T"), status := str "open", depth := 1,
    createdAt := 0, updatedAt := 0, lastType := str "CLARIFY", history := [] }

/-- An aged conversation record with the non-terminal-for-cleanup status
`partial`. -/
def convPartialOld : Conv := { convClarifyOpen with status := str "partial" }

/-- An open record whose most recent message was a REQUEST. -/
def convReqOpen : Conv := { convClarifyOpen with lastType := str "REQUEST" }

/-- A completed (`done`) record last updated at time 0. -/
def convDoneOld : Conv := { convClarifyOpen with status := str "done" }

/-! ## Wire-safety side conditions for the round-trip claim (C1).

The original claim quantifies over *every* field mapping the builder accepts,
which fails (e.g. a recipient containing a space breaks the header grammar).
These predicates name the wire-safe class of values to which the amended
claim restricts: printable ASCII, no backticks, no leading/trailing space,
and a recipient with no spaces at all. -/

/-- A field value that survives the wire format: non-empty printable ASCII
without backticks, not starting or ending with a space. -/
def wireSafe (s : Str) : Prop :=
  s ≠ [] ∧ (∀ c ∈ s, 0x20 ≤ c.toNat ∧ c.toNat < 0x7f ∧ c ≠ '`') ∧
  s.head? ≠ some ' ' ∧ s.getLast? ≠ some ' '

/-- A recipient that survives the header grammar: non-empty printable ASCII
with no spaces and no backticks. -/
def recipientSafe (s : Str) : Prop :=
  s ≠ [] ∧ ∀ c ∈ s, 0x20 < c.toNat ∧ c.toNat < 0x7f ∧ c ≠ '`'

/-- The `nanoid()` suffix alphabet `0123456789abcdefghijklmnopqrstuvwxyz`. -/
def genSafe (s : Str) : Prop :=
  ∀ c ∈ s, (0x61 ≤ c.toNat ∧ c.toNat ≤ 0x7a) ∨ (0x30 ≤ c.toNat ∧ c.toNat ≤ 0x39)

/-- The key–value pair an optional builder field contributes (mirrors the
`if (x) message += ...` lines). -/
def optPair (label : String) (v : Option Str) : List (Str × Str) :=
  if truthy v then [(str label, v.getD [])] else []

/-- The canonical wire text for a header and a list of key–value lines, used
to factor every builder's output through one parse lemma. -/
def mkWire (ty «to» : Str) (pairs : List (Str × Str)) : Str :=
  '`' :: '`' :: '`' :: '\n' :: '[' :: (ty ++ (' ' :: '→' :: ' ' :: '@' :: («to» ++ (']' :: '\n' ::
    ((pairs.map (fun p => (p.1 ++ ':' :: ' ' :: p.2) ++ ['\n'])).flatten ++ ['`', '`', '`'])))))

/-- The `Depth: current/max` field value emitted by every builder. -/
def depthStr (d : DepthPair) : Str := intToStr d.current ++ '/' :: intToStr d.max

/-- The requestId a builder with id generation ends up using: the provided one
when truthy, otherwise `generateRequestId(from)` (builder.js lines 22, 119). -/
def ridOf (requestId : Option Str) («from» gen : Str) : Str :=
  if truthy requestId then requestId.getD [] else generateRequestId «from» gen

/-- The key–value lines of a built REQUEST (and, with the provided requestId,
of a built HANDOFF). -/
def reqPairs (f rid t : Str) (context : Option Str) (ds : Str)
    (callback priority : Option Str) : List (Str × Str) :=
  [(str "From", f), (str "RequestId", rid), (str "Task", t)] ++
  optPair "Context" context ++ [(str "Depth", ds)] ++
  optPair "Callback" callback ++ optPair "Priority" priority

/-- The key–value lines of a built RESPONSE. -/
def respPairs (f rid : Str) (status result context : Option Str) (ds : Str) :
    List (Str × Str) :=
  [(str "From", f), (str "RequestId", rid)] ++ optPair "Status" status ++
  optPair "Result" result ++ optPair "Context" context ++ [(str "Depth", ds)]

/-- The key–value lines of a built CLARIFY. -/
def clarPairs (f rid q ds : Str) : List (Str × Str) :=
  [(str "From", f), (str "RequestId", rid), (str "Question", q), (str "Depth", ds)]

/-- The key–value lines of a built BROADCAST. -/
def bcastPairs (f rid msg : Str) (context : Option Str) (ds : Str) : List (Str × Str) :=
  [(str "From", f), (str "RequestId", rid), (str "Message", msg)] ++
  optPair "Context" context ++ [(str "Depth", ds)]

theorem digitChar_isDigit {n : Nat} (h : n < 10) : jsIsDigit (Nat.digitChar n) = true := by
  interval_cases n <;> decide

theorem natToStrCore_all_digit (fuel : Nat) : ∀ n, n < fuel →
    ∀ c ∈ natToStrCore fuel n, jsIsDigit c := by
  induction fuel with
  | zero => intro n hn; omega
  | succ fuel ih =>
    intro n hn c hc
    rw [natToStrCore] at hc
    split at hc
    · rcases List.mem_singleton.mp hc with rfl
      exact digitChar_isDigit (by omega)
    · rcases List.mem_append.mp hc with h | h
      · have hdiv : n / 10 < n := Nat.div_lt_self (by omega) (by omega)
        exact ih (n / 10) (by omega) c h
      · rcases List.mem_singleton.mp h with rfl
        exact digitChar_isDigit (Nat.mod_lt _ (by omega))

theorem natToStr_all_digit (n : Nat) : ∀ c ∈ natToStr n, jsIsDigit c :=
  natToStrCore_all_digit (n + 1) n (by omega)

theorem natToStr_ne_nil (n : Nat) : natToStr n ≠ [] := by
  rw [natToStr, natToStrCore]
  split
  · simp
  · simp

theorem jsIsDigit_not_space {c : Char} (h : jsIsDigit c = true) : jsIsSpace c = false := by
  simp only [jsIsDigit, Bool.and_eq_true, decide_eq_true_eq] at h
  simp only [jsIsSpace, Bool.or_eq_false_iff, decide_eq_false_iff_not]
  omega

theorem toNat_ofNat_valid (n : Nat) (h : n.isValidChar) : (Char.ofNat n).toNat = n := by
  simp [Char.ofNat, Char.toNat, dif_pos h, Char.ofNatAux, UInt32.toNat, BitVec.toNat_ofNatLt]

theorem char_toNat_inj {a b : Char} (h : a.toNat = b.toNat) : a = b :=
  Char.ext (UInt32.ext h)

/-! ## Claims about the builder depth guard (C2, C10) -/

/-- **C2** — With all other required fields present (truthy), `buildRequest`,
`buildClarify` and `buildHandoff` fail with the "depth limit reached" error
naming the refused message type exactly when `depth.current == depth.max`, and
succeed whenever `current < max`; `buildResponse` and `buildBroadcast` succeed
for every depth value. -/
theorem builders_depth_guard
    («to» «from» requestId task question message context callback priority
      status result : Option Str) (gen : Str) (c m : Int)
    (hto : truthy «to» = true) (hfrom : truthy «from» = true)
    (htask : truthy task = true) (hrid : truthy requestId = true)
    (hq : truthy question = true) (hmsg : truthy message = true)
    (hsr : truthy status = true ∨ truthy result = true) :
    (c = m →
      buildRequest «to» «from» requestId task context (some ⟨c, m⟩) callback priority gen =
        .error (depthErr "REQUEST" ⟨c, m⟩) ∧
      buildClarify «to» «from» requestId question (some ⟨c, m⟩) =
        .error (depthErr "CLARIFY" ⟨c, m⟩) ∧
      buildHandoff «to» «from» requestId task context (some ⟨c, m⟩) callback priority =
        .error (depthErr "HANDOFF" ⟨c, m⟩)) ∧
    (c < m →
      (∃ out, buildRequest «to» «from» requestId task context (some ⟨c, m⟩) callback priority gen
        = .ok out) ∧
      (∃ out, buildClarify «to» «from» requestId question (some ⟨c, m⟩) = .ok out) ∧
      (∃ out, buildHandoff «to» «from» requestId task context (some ⟨c, m⟩) callback priority
        = .ok out)) ∧
    (∀ d : Option DepthPair,
      (∃ out, buildResponse «to» «from» requestId status result context d = .ok out) ∧
      (∃ out, buildBroadcast «from» requestId message context d gen = .ok out)) := by
  refine ⟨fun hcm => ?_, fun hcm => ?_, fun d => ?_⟩
  · subst hcm
    refine ⟨?_, ?_, ?_⟩ <;>
      simp [buildRequest, buildClarify, buildHandoff, validateRequired,
        hto, hfrom, htask, hrid, hq]
  · have hne : c ≠ m := Int.ne_of_lt hcm
    refine ⟨?_, ?_, ?_⟩ <;>
      simp [buildRequest, buildClarify, buildHandoff, validateRequired,
        hto, hfrom, htask, hrid, hq, hne]
  · constructor
    · rcases hsr with hs | hr
      · simp [buildResponse, validateRequired, hto, hfrom, hrid, hs]
      · simp [buildResponse, validateRequired, hto, hfrom, hrid, hr]
    · simp [buildBroadcast, validateRequired, hfrom, hmsg]

/-- Witness for C2 at concrete inputs: at depth 5/5 `buildRequest` raises the
REQUEST depth error, at 1/5 `buildClarify` succeeds, and `buildResponse`
succeeds even at 5/5. -/
theorem builders_depth_guard_witness :
    buildRequest (some (str "Mantis")) (some (str "Lotbot")) (some (str "r1"))
        (some (str "T")) none (some ⟨5, 5⟩) none none (str "x") =
      .error (depthErr "REQUEST" ⟨5, 5⟩) ∧
    (∃ out, buildClarify (some (str "Mantis")) (some (str "Lotbot")) (some (str "r1"))
        (some (str "Q")) (some ⟨1, 5⟩) = .ok out) ∧
    (∃ out, buildResponse (some (str "Mantis")) (some (str "Lotbot")) (some (str "r1"))
        (some (str "done")) none none (some ⟨5, 5⟩) = .ok out) := by
  refine ⟨?_, ?_, ?_⟩
  · exact ((builders_depth_guard (some (str "Mantis")) (some (str "Lotbot"))
      (some (str "r1")) (some (str "T")) (some (str "Q")) (some (str "M"))
      none none none (some (str "done")) none (str "x") 5 5
      (by decide) (by decide) (by decide) (by decide) (by decide) (by decide)
      (Or.inl (by decide))).1 rfl).1
  · exact ((builders_depth_guard (some (str "Mantis")) (some (str "Lotbot"))
      (some (str "r1")) (some (str "T")) (some (str "Q")) (some (str "M"))
      none none none (some (str "done")) none (str "x") 1 5
      (by decide) (by decide) (by decide) (by decide) (by decide) (by decide)
      (Or.inl (by decide))).2.1 (by decide)).2.1
  · exact ((builders_depth_guard (some (str "Mantis")) (some (str "Lotbot"))
      (some (str "r1")) (some (str "T")) (some (str "Q")) (some (str "M"))
      none none none (some (str "done")) none (str "x") 1 5
      (by decide) (by decide) (by decide) (by decide) (by decide) (by decide)
      (Or.inl (by decide))).2.2 (some ⟨5, 5⟩)).1

/-- **C10** — The depth guard fires only at exact equality: with required
fields present and `current > max`, `buildRequest`, `buildClarify` and
`buildHandoff` succeed, and the built text contains the over-limit
`Depth: current/max` line verbatim. -/
theorem builders_depth_guard_only_equality
    («to» «from» requestId task question context callback priority : Option Str)
    (gen : Str) (c m : Int)
    (hto : truthy «to» = true) (hfrom : truthy «from» = true)
    (htask : truthy task = true) (hrid : truthy requestId = true)
    (hq : truthy question = true) (hcm : m < c) :
    (∃ pre post,
      buildRequest «to» «from» requestId task context (some ⟨c, m⟩) callback priority gen =
        .ok (pre ++ depthLine ⟨c, m⟩ ++ post)) ∧
    (∃ pre post,
      buildClarify «to» «from» requestId question (some ⟨c, m⟩) =
        .ok (pre ++ depthLine ⟨c, m⟩ ++ post)) ∧
    (∃ pre post,
      buildHandoff «to» «from» requestId task context (some ⟨c, m⟩) callback priority =
        .ok (pre ++ depthLine ⟨c, m⟩ ++ post)) ∧
    depthLine ⟨c, m⟩ = str "Depth: " ++ intToStr c ++ str "/" ++ intToStr m ++ ['\n'] := by
  have hne : c ≠ m := (Int.ne_of_lt hcm).symm
  refine ⟨?_, ?_, ?_, rfl⟩
  · refine ⟨str "```\n[REQUEST → @" ++ «to».getD [] ++ str "]\n" ++ str "From: " ++
      «from».getD [] ++ ['\n'] ++ str "RequestId: " ++ requestId.getD [] ++ ['\n'] ++
      str "Task: " ++ task.getD [] ++ ['\n'] ++ optSeg "Context: " context,
      optSeg "Callback: " callback ++ optSeg "Priority: " priority ++ str "```", ?_⟩
    simp [buildRequest, validateRequired, hto, hfrom, htask, hrid, hne, List.append_assoc]
  · refine ⟨str "```\n[CLARIFY → @" ++ «to».getD [] ++ str "]\n" ++ str "From: " ++
      «from».getD [] ++ ['\n'] ++ str "RequestId: " ++ requestId.getD [] ++ ['\n'] ++
      str "Question: " ++ question.getD [] ++ ['\n'], str "```", ?_⟩
    simp [buildClarify, validateRequired, hto, hfrom, hrid, hq, hne, List.append_assoc]
  · refine ⟨str "```\n[HANDOFF → @" ++ «to».getD [] ++ str "]\n" ++ str "From: " ++
      «from».getD [] ++ ['\n'] ++ str "RequestId: " ++ requestId.getD [] ++ ['\n'] ++
      str "Task: " ++ task.getD [] ++ ['\n'] ++ optSeg "Context: " context,
      optSeg "Callback: " callback ++ optSeg "Priority: " priority ++ str "```", ?_⟩
    simp [buildHandoff, validateRequired, hto, hfrom, hrid, htask, hne, List.append_assoc]

/-- Witness for C10 at depth 6/5. -/
theorem builders_depth_guard_only_equality_witness :
    (∃ pre post,
      buildRequest (some (str "Mantis")) (some (str "Lotbot")) (some (str "r1"))
          (some (str "T")) none (some ⟨6, 5⟩) none none (str "x") =
        .ok (pre ++ depthLine ⟨6, 5⟩ ++ post)) ∧
    depthLine ⟨6, 5⟩ = str "Depth: " ++ intToStr 6 ++ str "/" ++ intToStr 5 ++ ['\n'] := by
  refine ⟨?_, ?_⟩
  · exact (builders_depth_guard_only_equality (some (str "Mantis")) (some (str "Lotbot"))
      (some (str "r1")) (some (str "T")) (some (str "Q")) none none none (str "x") 6 5
      (by decide) (by decide) (by decide) (by decide) (by decide) (by decide)).1
  · exact (builders_depth_guard_only_equality (some (str "Mantis")) (some (str "Lotbot"))
      (some (str "r1")) (some (str "T")) (some (str "Q")) none none none (str "x") 6 5
      (by decide) (by decide) (by decide) (by decide) (by decide) (by decide)).2.2.2

/-! ## Claims about `cleanup` (C5) -/

/-- **C5 (counterexample)** — An aged record with status `partial` is *not*
removed by `cleanup`, although the claim counts `partial` among the terminal
statuses eligible for deletion: on a single-record state of status `partial`
with age `1000000 > 1000`, `cleanup` removes nothing. -/
theorem cleanup_partial_not_removed :
    (cleanup 1000000 1000 [(str "r1", convPartialOld)]).1 = 0 ∧
    (cleanup 1000000 1000 [(str "r1", convPartialOld)]).2 = [(str "r1", convPartialOld)] ∧
    convPartialOld.status = str "partial" ∧
    (1000000 : Int) - convPartialOld.updatedAt > 1000 := by
  decide

/-- **C5 (amended)** — `cleanup(olderThanMs)` deletes exactly the records
whose status is one of `done`, `failed`, `timeout` and whose age exceeds
`olderThanMs`, returns the count removed, and never removes a record with any
other status (`open`, `clarifying`, `partial`) regardless of age. -/
theorem cleanup_characterization (now olderThanMs : Int) (st : BPState) :
    (cleanup now olderThanMs st).1 = (st.filter (removeCond now olderThanMs)).length ∧
    (cleanup now olderThanMs st).2 = st.filter (fun p => !removeCond now olderThanMs p) ∧
    ∀ p ∈ st, p.2.status = str "open" ∨ p.2.status = str "clarifying" ∨
      p.2.status = str "partial" → p ∈ (cleanup now olderThanMs st).2 := by
  have key : ∀ (l : BPState),
      (cleanup now olderThanMs l).1 = (l.filter (removeCond now olderThanMs)).length ∧
      (cleanup now olderThanMs l).2 = l.filter (fun p => !removeCond now olderThanMs p) := by
    intro l
    induction l with
    | nil => simp [cleanup]
    | cons p rest ih =>
      by_cases h : removeCond now olderThanMs p
      · simp [cleanup, List.filter_cons, h, ih.1, ih.2]
      · simp [cleanup, List.filter_cons, h, ih.1, ih.2]
  refine ⟨(key st).1, (key st).2, fun p hp hs => ?_⟩
  rw [(key st).2, List.mem_filter]
  refine ⟨hp, ?_⟩
  simp only [removeCond, Bool.not_eq_eq_eq_not, Bool.not_true, decide_eq_false_iff_not,
    not_and, not_or]
  intro _
  rcases hs with h | h | h <;>
    exact ⟨fun h2 => absurd (h ▸ h2) (by decide),
           fun h2 => absurd (h ▸ h2) (by decide),
           fun h2 => absurd (h ▸ h2) (by decide)⟩

/-- Witness for C5 (amended) on a two-record state: the aged `done` record is
removed, the aged `open` record stays. -/
theorem cleanup_characterization_witness :
    (cleanup 1000000 1000 [(str "a", { convClarifyOpen with status := str "done" }),
        (str "b", convClarifyOpen)]).1 = 1 ∧
    (cleanup 1000000 1000 [(str "a", { convClarifyOpen with status := str "done" }),
        (str "b", convClarifyOpen)]).2 = [(str "b", convClarifyOpen)] ∧
    (str "b", convClarifyOpen) ∈
      (cleanup 1000000 1000 [(str "a", { convClarifyOpen with status := str "done" }),
        (str "b", convClarifyOpen)]).2 := by
  have h := cleanup_characterization 1000000 1000
    [(str "a", { convClarifyOpen with status := str "done" }), (str "b", convClarifyOpen)]
  refine ⟨?_, ?_, ?_⟩
  · rw [h.1]; decide
  · rw [h.2.1]; decide
  · exact h.2.2 (str "b", convClarifyOpen) (by decide) (Or.inl (by decide))

/-! ## Claims about `track` (C7, C8) -/

theorem lookupConv_append (l1 l2 : BPState) (rid : Str) :
    lookupConv (l1 ++ l2) rid = (lookupConv l1 rid).or (lookupConv l2 rid) := by
  simp only [lookupConv, List.find?_append]
  cases l1.find? (fun p => decide (p.1 = rid)) <;> simp

theorem lookupConv_map_keyupdate (st : BPState) (rid : Str) (T : Str × Conv → Conv) :
    lookupConv (st.map (fun p => if p.1 = rid then (p.1, T p) else p)) rid =
      (st.find? (fun p => decide (p.1 = rid))).map (fun p => T p) := by
  induction st with
  | nil => rfl
  | cons q rest ih =>
    by_cases hq : q.1 = rid
    · simp [lookupConv, hq, List.find?_cons_of_pos]
    · simp only [List.map_cons, if_neg hq]
      simp only [lookupConv] at ih ⊢
      rw [List.find?_cons_of_neg _ (by simp [hq]), List.find?_cons_of_neg _ (by simp [hq]), ih]

theorem updatedConv_depth (now : Int) (msg : Message) (conv : Conv) :
    (updatedConv now msg conv).depth = conv.depth := by
  simp only [updatedConv]
  split_ifs <;> rfl

/-- **C7 (counterexample)** — Tracking a REQUEST at depth 1 and then a CLARIFY
at depth 2 on the same conversation leaves the record's `depth` at 1, the
creation-time depth, not the last seen depth 2. -/
theorem track_depth_claim_false :
    (lookupConv (trackStep 2000 (trackStep 1000 [] msgA) msgB) (str "r-1")).map Conv.depth
      = some 1 ∧
    msgB.requestId = some (str "r-1") ∧ msgB.depth = some ⟨2, 5⟩ ∧ (1 : Int) ≠ 2 := by
  decide

/-- **C7 (amended)** — A record's `depth` equals the current depth carried by
the message that *created* the record (defaulting to 1 when that message
carried no depth); subsequent `track()` calls for the same `requestId` leave
`depth` unchanged. -/
theorem track_depth_characterization (now : Int) (st : BPState) (msg : Message) :
    (lookupConv st (msg.requestId.getD []) = none →
      (lookupConv (trackStep now st msg) (msg.requestId.getD [])).map Conv.depth =
        some (match msg.depth with | some d => d.current | none => 1)) ∧
    (∀ c, lookupConv st (msg.requestId.getD []) = some c →
      (lookupConv (trackStep now st msg) (msg.requestId.getD [])).map Conv.depth =
        some c.depth) := by
  constructor
  · intro h
    simp only [trackStep, h]
    rw [lookupConv_append, h]
    simp [lookupConv, List.find?, newConv]
  · intro c h
    simp only [trackStep, h]
    rw [lookupConv_map_keyupdate]
    simp only [lookupConv] at h
    obtain ⟨q, hq, hq2⟩ := Option.map_eq_some'.mp h
    rw [hq]
    simp [updatedConv_depth, hq2]

/-- Witness for C7 (amended): creating `r-1` with a depth-1/5 REQUEST stores
depth 1, and the follow-up CLARIFY leaves it at 1. -/
theorem track_depth_characterization_witness :
    ((lookupConv (trackStep 1000 [] msgA) (msgA.requestId.getD [])).map Conv.depth =
      some (match msgA.depth with | some d => d.current | none => 1)) ∧
    ((lookupConv (trackStep 2000 (trackStep 1000 [] msgA) msgB)
        (msgB.requestId.getD [])).map Conv.depth = some 1) := by
  refine ⟨(track_depth_characterization 1000 [] msgA).1 (by decide), ?_⟩
  have h2 := (track_depth_characterization 2000 (trackStep 1000 [] msgA) msgB).2
    (newConv 1000 msgA) (by decide)
  rw [h2]
  decide

/-! ## Structural lemmas about `parse` (used by C3, C6, C8, C9) -/

theorem parse_some_exists {raw : Str} {m : Message} (h : parse raw = some m) :
    ∃ ty rcp rest, VALID_TYPES.contains ty = true ∧
      finalize ty rcp raw (fieldLoop {} none rest) = some m := by
  unfold parse at h
  split at h
  · simp at h
  · split at h
    · simp at h
    · split at h
      · simp at h
      · split at h
        · simp at h
        · split at h
          · exact ⟨_, _, _, by assumption, h⟩
          · simp at h

theorem finalize_some_elim {ty rcp raw : Str} {f : FieldAcc} {m : Message}
    (h : finalize ty rcp raw f = some m) :
    m = { type := ty, «to» := rcp, «from» := f.«from», requestId := f.requestId,
          task := f.task, result := f.result, context := f.context,
          callback := f.callback, priority := f.priority, status := f.status,
          question := f.question, message := f.message,
          depth := match f.depth with
                   | none => none
                   | some s => if s = [] then none else depthMatch s,
          meta := f.meta, raw := raw } ∧
    truthy f.«from» = true ∧ truthy f.requestId = true ∧
    (ty = str "REQUEST" → truthy f.task = true) ∧
    (ty = str "RESPONSE" → truthy f.result = true ∨ truthy f.status = true) ∧
    (ty = str "CLARIFY" → truthy f.question = true) ∧
    (ty = str "HANDOFF" → truthy f.task = true) ∧
    (ty = str "BROADCAST" → truthy f.message = true) := by
  simp only [finalize] at h
  split_ifs at h with h1 h2 h3 h4 h5 h6
  simp only [not_or, Bool.not_eq_false] at h1
  simp only [not_and, Bool.not_eq_false] at h2 h4 h5 h6
  simp only [not_and, Bool.not_eq_false] at h3
  refine ⟨(Option.some.inj h).symm, h1.1, h1.2, h2, ?_, h4, h5, h6⟩
  intro hty
  by_cases hr : truthy f.result = true
  · exact Or.inl hr
  · exact Or.inr (h3 hty (Bool.not_eq_true _ ▸ hr))

/-- **C3** — Every accepted message has truthy `from` and `requestId` and
satisfies its type-specific payload requirement (REQUEST/HANDOFF: `task`;
RESPONSE: `result` or `status`; CLARIFY: `question`; BROADCAST: `message`);
any input violating one of these is rejected, so no partially-valid message
is ever returned. -/
theorem parse_valid_message {raw : Str} {m : Message} (h : parse raw = some m) :
    truthy m.«from» = true ∧ truthy m.requestId = true ∧
    ((m.type = str "REQUEST" ∨ m.type = str "HANDOFF") → truthy m.task = true) ∧
    (m.type = str "RESPONSE" → truthy m.result = true ∨ truthy m.status = true) ∧
    (m.type = str "CLARIFY" → truthy m.question = true) ∧
    (m.type = str "BROADCAST" → truthy m.message = true) := by
  obtain ⟨ty, rcp, rest, _, hfin⟩ := parse_some_exists h
  obtain ⟨hm, hfrom, hrid, hreq, hresp, hcla, hhand, hbro⟩ := finalize_some_elim hfin
  subst hm
  exact ⟨hfrom, hrid, fun hty => hty.elim hreq hhand, hresp, hcla, hbro⟩

/-- Witness for C3 on the spec §8 example message. -/
theorem parse_valid_message_witness :
    ∃ m, parse rawReqEx = some m ∧
      (truthy m.«from» = true ∧ truthy m.requestId = true ∧
        ((m.type = str "REQUEST" ∨ m.type = str "HANDOFF") → truthy m.task = true) ∧
        (m.type = str "RESPONSE" → truthy m.result = true ∨ truthy m.status = true) ∧
        (m.type = str "CLARIFY" → truthy m.question = true) ∧
        (m.type = str "BROADCAST" → truthy m.message = true)) := by
  exact ⟨msgReqEx, by decide, @parse_valid_message rawReqEx msgReqEx (by decide)⟩

theorem depthMatch_nonneg {s : Str} {dp : DepthPair} (h : depthMatch s = some dp) :
    0 ≤ dp.current ∧ 0 ≤ dp.max := by
  simp only [depthMatch] at h
  split_ifs at h
  split at h
  · exact Option.noConfusion h
  · simp only [ite_eq_iff] at h
    rcases h with ⟨-, h⟩ | ⟨-, h⟩
    · rcases h with ⟨-, h⟩ | ⟨-, h⟩
      · have h2 := Option.some.inj h
        subst h2
        exact ⟨Int.ofNat_nonneg _, Int.ofNat_nonneg _⟩
      · exact Option.noConfusion h
    · exact Option.noConfusion h

/-- **C6 (counterexample)** — The input with `Depth: 7/5` is accepted and its
depth is the pair `(7, 5)` with `current > max`: the parser does not enforce
`current ≤ max`. -/
theorem parse_depth_claim_false :
    (parse rawDepth75).isSome = true ∧
    (parse rawDepth75).bind Message.depth = some ⟨7, 5⟩ ∧
    ¬ ((7 : Int) ≤ 5) := by
  decide

/-- **C6 (amended)** — For every accepted input, the message's depth is either
absent or a pair of non-negative integers; a depth value that does not match
the `current/max` numeric grammar is discarded.  (The relation
`current ≤ max` is *not* enforced.) -/
theorem parse_depth_shape {raw : Str} {m : Message} (h : parse raw = some m) :
    m.depth = none ∨ ∃ dp, m.depth = some dp ∧ 0 ≤ dp.current ∧ 0 ≤ dp.max := by
  obtain ⟨ty, rcp, rest, _, hfin⟩ := parse_some_exists h
  obtain ⟨hm, -⟩ := finalize_some_elim hfin
  subst hm
  simp only
  split
  · exact Or.inl rfl
  · split_ifs with h1
    · exact Or.inl rfl
    · rcases hd : depthMatch _ with _ | dp
      · exact Or.inl rfl
      · exact Or.inr ⟨dp, rfl, (depthMatch_nonneg hd).1, (depthMatch_nonneg hd).2⟩

/-- Witness for C6 (amended) on the spec §8 example (depth `1/5`). -/
theorem parse_depth_shape_witness :
    ∃ m, parse rawReqEx = some m ∧
      (m.depth = none ∨ ∃ dp, m.depth = some dp ∧ 0 ≤ dp.current ∧ 0 ≤ dp.max) := by
  exact ⟨msgReqEx, by decide, @parse_depth_shape rawReqEx msgReqEx (by decide)⟩

/-! ## Meta-key casing (C9) -/

theorem jsToLowerChar_idem (c : Char) : jsToLowerChar (jsToLowerChar c) = jsToLowerChar c := by
  by_cases h : 0x41 ≤ c.toNat ∧ c.toNat ≤ 0x5a
  · have h1 : jsToLowerChar c = Char.ofNat (c.toNat + 32) := by
      rw [jsToLowerChar, if_pos h]
    have hv : (c.toNat + 32).isValidChar := Or.inl (by omega)
    have h2 : (Char.ofNat (c.toNat + 32)).toNat = c.toNat + 32 := toNat_ofNat_valid _ hv
    rw [h1, jsToLowerChar, if_neg (by rw [h2]; omega)]
  · have h1 : jsToLowerChar c = c := by rw [jsToLowerChar, if_neg h]
    rw [h1, h1]

theorem jsToLower_idem (s : Str) : jsToLower (jsToLower s) = jsToLower s := by
  induction s with
  | nil => rfl
  | cons c rest ih =>
    show jsToLowerChar (jsToLowerChar c) :: jsToLower (jsToLower rest) =
      jsToLowerChar c :: jsToLower rest
    rw [jsToLowerChar_idem, ih]

theorem saveKnown_meta (r : FieldAcc) (nk cv : Str) : (saveKnown r nk cv).meta = r.meta := by
  unfold saveKnown
  simp only [apply_ite FieldAcc.meta]
  simp only [ite_self]

theorem metaSet_keys {meta : List (Str × Str)} {k v : Str}
    (hm : ∀ p ∈ meta, jsToLower p.1 = p.1) (hk : jsToLower k = k) :
    ∀ p ∈ metaSet meta k v, jsToLower p.1 = p.1 := by
  intro p hp
  unfold metaSet at hp
  split_ifs at hp
  · obtain ⟨q, hq, hq2⟩ := List.mem_map.mp hp
    by_cases hqk : q.1 = k
    · rw [if_pos hqk] at hq2
      rw [← hq2]
      exact hk
    · rw [if_neg hqk] at hq2
      exact hq2 ▸ hm q hq
  · rcases List.mem_append.mp hp with h | h
    · exact hm p h
    · rcases List.mem_singleton.mp h with rfl
      exact hk

theorem saveField_meta_keys {r : FieldAcc} {k v : Str}
    (hm : ∀ p ∈ r.meta, jsToLower p.1 = p.1) (hk : jsToLower k = k) :
    ∀ p ∈ (saveField r k v).meta, jsToLower p.1 = p.1 := by
  intro p hp
  simp only [saveField] at hp
  split_ifs at hp
  · rw [saveKnown_meta] at hp
    exact hm p hp
  · exact metaSet_keys hm hk p hp

theorem fieldLoop_meta_keys (lines : List Str) : ∀ (r : FieldAcc) (cur : Option (Str × List Str)),
    (∀ p ∈ r.meta, jsToLower p.1 = p.1) →
    (∀ k vs, cur = some (k, vs) → jsToLower k = k) →
    ∀ p ∈ (fieldLoop r cur lines).meta, jsToLower p.1 = p.1 := by
  induction lines with
  | nil =>
    intro r cur hr hcur p hp
    match cur with
    | none => exact hr p hp
    | some (k, vs) => exact saveField_meta_keys hr (hcur k vs rfl) p hp
  | cons line rest ih =>
    intro r cur hr hcur p hp
    unfold fieldLoop at hp
    rcases hkv : kvMatch line with _ | ⟨key, value⟩ <;> rw [hkv] at hp
    · match cur with
      | none => exact ih r none hr (by simp) p hp
      | some (k, vs) =>
        refine ih r (some (k, vs ++ [line])) hr ?_ p hp
        intro k' vs' he
        obtain ⟨h1, -⟩ := Prod.mk.injEq .. |>.mp (Option.some.inj he)
        rw [← h1]
        exact hcur k vs rfl
    · match cur with
      | none =>
        refine ih r (some (jsToLower key, [value])) hr ?_ p hp
        intro k' vs' he
        obtain ⟨h1, -⟩ := Prod.mk.injEq .. |>.mp (Option.some.inj he)
        rw [← h1]
        exact jsToLower_idem key
      | some (k, vs) =>
        refine ih (saveField r k (joinLines vs)) (some (jsToLower key, [value]))
          (saveField_meta_keys hr (hcur k vs rfl)) ?_ p hp
        intro k' vs' he
        obtain ⟨h1, -⟩ := Prod.mk.injEq .. |>.mp (Option.some.inj he)
        rw [← h1]
        exact jsToLower_idem key

/-- **C9 (counterexample)** — The input line `XFeature: v` is stored in `meta`
under the lower-cased key `xfeature`, not under its original casing
`XFeature`. -/
theorem parse_meta_casing_claim_false :
    (parse rawXFeature).map Message.meta = some [(str "xfeature", str "v")] ∧
    str "xfeature" ≠ str "XFeature" := by
  decide

/-- **C9 (amended)** — Unknown fields are stored in `meta` under the
*lower-cased* form of the key as written (the scanning loop lower-cases every
key before saving): every meta key of every accepted message is fixed under
lower-casing. -/
theorem parse_meta_keys_lowercased {raw : Str} {m : Message} (h : parse raw = some m) :
    ∀ p ∈ m.meta, jsToLower p.1 = p.1 := by
  obtain ⟨ty, rcp, rest, -, hfin⟩ := parse_some_exists h
  obtain ⟨hm, -⟩ := finalize_some_elim hfin
  subst hm
  exact fieldLoop_meta_keys rest {} none (by simp [FieldAcc.meta]) (by simp)

/-- Witness for C9 (amended) on the `XFeature: v` input. -/
theorem parse_meta_keys_lowercased_witness :
    ∃ m, parse rawXFeature = some m ∧ ∀ p ∈ m.meta, jsToLower p.1 = p.1 := by
  exact ⟨msgXFeatureEx, by decide,
    @parse_meta_keys_lowercased rawXFeature msgXFeatureEx (by decide)⟩

/-! ## `track` never produces the status `timeout` (C8) -/

theorem status_contains_ne_timeout {s : Str} (h : VALID_STATUSES.contains s = true) :
    s ≠ str "timeout" := by
  have hm : s ∈ VALID_STATUSES := by simpa using h
  simp only [VALID_STATUSES, List.mem_cons, List.mem_singleton] at hm
  rcases hm with rfl | rfl | rfl | h0 <;> first | decide | cases h0

theorem saveKnown_status_legal {r : FieldAcc} (nk cv : Str)
    (h : ∀ s, r.status = some s → VALID_STATUSES.contains s = true) :
    ∀ s, (saveKnown r nk cv).status = some s → VALID_STATUSES.contains s = true := by
  intro s hs
  unfold saveKnown at hs
  by_cases h1 : nk = str "requestid"
  · rw [if_pos h1] at hs; exact h s hs
  rw [if_neg h1] at hs
  by_cases h2 : nk = str "from"
  · rw [if_pos h2] at hs; exact h s hs
  rw [if_neg h2] at hs
  by_cases h3 : nk = str "task"
  · rw [if_pos h3] at hs; exact h s hs
  rw [if_neg h3] at hs
  by_cases h4 : nk = str "result"
  · rw [if_pos h4] at hs; exact h s hs
  rw [if_neg h4] at hs
  by_cases h5 : nk = str "context"
  · rw [if_pos h5] at hs; exact h s hs
  rw [if_neg h5] at hs
  by_cases h6 : nk = str "depth"
  · rw [if_pos h6] at hs; exact h s hs
  rw [if_neg h6] at hs
  by_cases h7 : nk = str "callback"
  · rw [if_pos h7] at hs; exact h s hs
  rw [if_neg h7] at hs
  by_cases h8 : nk = str "priority"
  · rw [if_pos h8] at hs; exact h s hs
  rw [if_neg h8] at hs
  by_cases h9 : nk = str "status"
  · rw [if_pos h9] at hs
    have hs' : (if VALID_STATUSES.contains cv = true then some cv else none) = some s := hs
    split_ifs at hs' with hc
    exact (Option.some.inj hs') ▸ hc
  rw [if_neg h9] at hs
  by_cases h10 : nk = str "question"
  · rw [if_pos h10] at hs; exact h s hs
  rw [if_neg h10] at hs
  exact h s hs

theorem saveField_status_legal {r : FieldAcc} {k v : Str}
    (h : ∀ s, r.status = some s → VALID_STATUSES.contains s = true) :
    ∀ s, (saveField r k v).status = some s → VALID_STATUSES.contains s = true := by
  intro s hs
  simp only [saveField] at hs
  split_ifs at hs
  · exact saveKnown_status_legal _ _ h s hs
  · exact h s hs

theorem fieldLoop_status_legal (lines : List Str) : ∀ (r : FieldAcc)
    (cur : Option (Str × List Str)),
    (∀ s, r.status = some s → VALID_STATUSES.contains s = true) →
    ∀ s, (fieldLoop r cur lines).status = some s → VALID_STATUSES.contains s = true := by
  induction lines with
  | nil =>
    intro r cur hr s hs
    match cur with
    | none => exact hr s hs
    | some (k, vs) => exact saveField_status_legal hr s hs
  | cons line rest ih =>
    intro r cur hr s hs
    unfold fieldLoop at hs
    rcases hkv : kvMatch line with _ | ⟨key, value⟩ <;> rw [hkv] at hs
    · match cur with
      | none => exact ih r none hr s hs
      | some (k, vs) => exact ih r (some (k, vs ++ [line])) hr s hs
    · match cur with
      | none => exact ih r (some (jsToLower key, [value])) hr s hs
      | some (k, vs) =>
        exact ih (saveField r k (joinLines vs)) (some (jsToLower key, [value]))
          (saveField_status_legal hr) s hs

theorem parse_status_legal {raw : Str} {m : Message} (h : parse raw = some m) :
    ∀ s, m.status = some s → VALID_STATUSES.contains s = true := by
  obtain ⟨ty, rcp, rest, -, hfin⟩ := parse_some_exists h
  obtain ⟨hm, -⟩ := finalize_some_elim hfin
  subst hm
  exact fieldLoop_status_legal rest {} none (fun s hs => by simp at hs)

theorem trackStep_no_timeout (now : Int) (st : BPState) (msg : Message)
    (hmsg : ∀ s, msg.status = some s → VALID_STATUSES.contains s = true)
    (hst : ∀ p ∈ st, p.2.status ≠ str "timeout") :
    ∀ p ∈ trackStep now st msg, p.2.status ≠ str "timeout" := by
  have hnewstat : ∀ (c : Conv), c.status = (jsOrStr msg.status (some (str "done"))).getD [] →
      c.status ≠ str "timeout" := by
    intro c hc
    rw [hc]
    unfold jsOrStr
    split_ifs with htr
    · match hstat : msg.status with
      | none =>
        rw [hstat] at htr
        simp [truthy] at htr
      | some s0 => exact status_contains_ne_timeout (hmsg s0 hstat)
    · decide
  intro p hp
  simp only [trackStep] at hp
  split at hp
  · rcases List.mem_append.mp hp with h | h
    · exact hst p h
    · rcases List.mem_singleton.mp h with rfl
      show (newConv now msg).status ≠ str "timeout"
      unfold newConv
      split_ifs with ht
      · exact hnewstat _ rfl
      · exact (by decide : str "open" ≠ str "timeout")
  · obtain ⟨q, hq, rfl⟩ := List.mem_map.mp hp
    by_cases hk : q.1 = msg.requestId.getD []
    · rw [if_pos hk]
      show (updatedConv now msg q.2).status ≠ str "timeout"
      unfold updatedConv
      split_ifs with h1 h2
      · exact hnewstat _ rfl
      · exact (by decide : str "clarifying" ≠ str "timeout")
      · exact hst q hq
    · rw [if_neg hk]
      exact hst q hq

/-- **C8** — When every tracked message comes out of `parse` (so its status,
if set, is one of `done`, `partial`, `failed`), no sequence of `track()` calls
ever gives a record the status `timeout`: starting from a state with no
`timeout` record, the folded state still has none. -/
theorem track_timeout_only_from_sweep (steps : List (Int × Message))
    (hp : ∀ q ∈ steps, ∃ raw, parse raw = some q.2) (st : BPState)
    (hst : ∀ p ∈ st, p.2.status ≠ str "timeout") :
    ∀ p ∈ steps.foldl (fun s q => trackStep q.1 s q.2) st, p.2.status ≠ str "timeout" := by
  induction steps generalizing st with
  | nil => exact hst
  | cons q rest ih =>
    obtain ⟨raw, hraw⟩ := hp q (List.mem_cons_self _ _)
    exact ih (fun q' hq' => hp q' (List.mem_cons_of_mem _ hq'))
      (trackStep q.1 st q.2)
      (trackStep_no_timeout q.1 st q.2 (parse_status_legal hraw) hst)

/-- Witness for C8: tracking the parsed spec §8 example message from the empty
state yields a record whose status is not `timeout`. -/
theorem track_timeout_only_from_sweep_witness :
    (([((1000 : Int), msgReqEx)].foldl (fun s q => trackStep q.1 s q.2)
        ([] : BPState)).get ⟨0, by decide⟩).2.status ≠ str "timeout" := by
  refine track_timeout_only_from_sweep [((1000 : Int), msgReqEx)] ?_ []
    (fun p hp => absurd hp (List.not_mem_nil p)) _ (List.get_mem _ _ _)
  intro q hq
  rcases List.mem_singleton.mp hq with rfl
  exact ⟨rawReqEx, by decide⟩

/-! ## The `checkTimeouts` sweep (C4) -/

theorem key_inj {st : BPState} (h : (st.map Prod.fst).Nodup) {p q : Str × Conv}
    (hp : p ∈ st) (hq : q ∈ st) (hk : p.1 = q.1) : p = q := by
  induction st with
  | nil => cases hp
  | cons a rest ih =>
    rcases List.mem_cons.mp hp with rfl | hp'
    · rcases List.mem_cons.mp hq with rfl | hq'
      · rfl
      · refine absurd ?_ (List.nodup_cons.mp h).1
        rw [hk]
        exact List.mem_map_of_mem Prod.fst hq'
    · rcases List.mem_cons.mp hq with rfl | hq'
      · refine absurd ?_ (List.nodup_cons.mp h).1
        rw [← hk]
        exact List.mem_map_of_mem Prod.fst hp'
      · exact ih (List.nodup_cons.mp h).2 hp' hq'

theorem timeoutOp_eq_pointwise {cur : BPState} {p : Str × Conv} (now : Int)
    (hkeys : (cur.map Prod.fst).Nodup) (hp : p ∈ cur) :
    timeoutOp now cur p.1 (reasonFor now p) =
      cur.map (fun q => if q = p then timedConv now p else q) := by
  unfold timeoutOp
  apply List.map_congr_left
  intro q hq
  by_cases hk : q.1 = p.1
  · obtain rfl := key_inj hkeys hq hp hk
    rw [if_pos rfl, if_pos rfl]
    rfl
  · rw [if_neg hk, if_neg (fun he => hk (congrArg Prod.fst he))]

theorem checkLoop_chars (now : Int) (rest : List (Str × Conv)) :
    ∀ (ids : List Str) (cur : BPState),
    (∀ p ∈ rest, p ∈ cur) → ((cur.map Prod.fst).Nodup) → ((rest.map Prod.fst).Nodup) →
    checkLoop now rest (ids, cur) =
      (ids ++ (rest.filter (flaggedEntry now)).map Prod.fst,
       cur.map (fun q => if q ∈ rest ∧ flaggedEntry now q = true then timedConv now q else q)) := by
  induction rest with
  | nil =>
    intro ids cur h1 h2 h3
    simp [checkLoop]
  | cons p rest ih =>
    intro ids cur h1 h2 h3
    have hpcur : p ∈ cur := h1 p (List.mem_cons_self _ _)
    have hpnotrest : p.1 ∉ rest.map Prod.fst := (List.nodup_cons.mp h3).1
    by_cases hf : flaggedEntry now p = true
    · unfold checkLoop
      rw [if_pos hf, timeoutOp_eq_pointwise now h2 hpcur]
      have hkeys2 : ((cur.map (fun q => if q = p then timedConv now p else q)).map
          Prod.fst).Nodup := by
        rw [List.map_map]
        have hcong : ∀ q ∈ cur,
            (Prod.fst ∘ fun q => if q = p then timedConv now p else q) q = q.1 := by
          intro q hq
          by_cases hqp : q = p
          · subst hqp
            simp [timedConv]
          · simp [hqp]
        rw [List.map_congr_left hcong]
        exact h2
      have hmem2 : ∀ q ∈ rest, q ∈ cur.map (fun q => if q = p then timedConv now p else q) := by
        intro q hq
        have hqp : q ≠ p := by
          intro he
          exact hpnotrest (he ▸ List.mem_map_of_mem Prod.fst hq)
        exact List.mem_map.mpr ⟨q, h1 q (List.mem_cons_of_mem _ hq), by rw [if_neg hqp]⟩
      rw [ih (ids ++ [p.1]) _ hmem2 hkeys2 (List.nodup_cons.mp h3).2]
      refine Prod.ext ?_ ?_
      · simp [List.filter_cons, hf]
      · simp only [List.map_map]
        apply List.map_congr_left
        intro q hq
        simp only [Function.comp_apply]
        by_cases hqp : q = p
        · subst hqp
          rw [if_pos rfl]
          have htnotin : ¬ (timedConv now q ∈ rest ∧ flaggedEntry now (timedConv now q) = true) := by
            intro hand
            have hmemk : (timedConv now q).1 ∈ rest.map Prod.fst :=
              List.mem_map_of_mem Prod.fst hand.1
            exact hpnotrest hmemk
          rw [if_neg htnotin, if_pos ⟨List.mem_cons_self _ _, hf⟩]
        · rw [if_neg hqp]
          simp only [List.mem_cons, hqp, false_or]
    · unfold checkLoop
      rw [if_neg hf,
        ih ids cur (fun q hq => h1 q (List.mem_cons_of_mem _ hq)) h2 (List.nodup_cons.mp h3).2]
      refine Prod.ext ?_ ?_
      · simp [List.filter_cons, hf]
      · apply List.map_congr_left
        intro q hq
        by_cases hqp : q = p
        · subst hqp
          rw [if_neg (fun hand => hf hand.2), if_neg (fun hand => hf hand.2)]
        · simp only [List.mem_cons, hqp, false_or]

/-- **C4** — On a state with unique keys whose records carry a (non-empty)
`lastType`, `checkTimeouts()` flags exactly the records with status `open` or
`clarifying` whose age strictly exceeds the window selected by `lastType` from
the fixed table (CLARIFY 10 min, REQUEST 30 min, HANDOFF 30 min, BROADCAST
5 min, anything else 30 min), transitions each flagged record to status
`timeout` (with updated `updatedAt` and a TIMEOUT history entry), returns the
flagged identifiers in order, and leaves every other record unchanged. -/
theorem checkTimeouts_correct (now : Int) (st : BPState)
    (hkeys : (st.map Prod.fst).Nodup) (hlast : ∀ p ∈ st, p.2.lastType ≠ []) :
    (checkTimeouts now st).1 = (st.filter (flaggedEntry now)).map Prod.fst ∧
    (checkTimeouts now st).2 =
      st.map (fun q => if flaggedEntry now q = true then timedConv now q else q) ∧
    (∀ p ∈ st, (flaggedEntry now p = true ↔
      ((p.2.status = str "open" ∨ p.2.status = str "clarifying") ∧
        now - p.2.updatedAt > timeoutWindow p.2.lastType))) ∧
    (∀ p : Str × Conv, (timedConv now p).1 = p.1 ∧
      (timedConv now p).2.status = str "timeout" ∧
      (timedConv now p).2.updatedAt = now ∧
      (timedConv now p).2.history = p.2.history ++
        [{ type := str "TIMEOUT", reason := some (reasonFor now p), «at» := now }]) ∧
    timeoutWindow (str "CLARIFY") = 10 * 60 * 1000 ∧
    timeoutWindow (str "REQUEST") = 30 * 60 * 1000 ∧
    timeoutWindow (str "HANDOFF") = 30 * 60 * 1000 ∧
    timeoutWindow (str "BROADCAST") = 5 * 60 * 1000 ∧
    (∀ t : Str, t ≠ str "CLARIFY" → t ≠ str "REQUEST" → t ≠ str "HANDOFF" →
      t ≠ str "BROADCAST" → timeoutWindow t = 30 * 60 * 1000) := by
  have hmain := checkLoop_chars now st [] st (fun p hp => hp) hkeys hkeys
  refine ⟨?_, ?_, ?_, ?_, by decide, by decide, by decide, by decide, ?_⟩
  · rw [checkTimeouts, hmain]
    simp
  · rw [checkTimeouts, hmain]
    simp only
    apply List.map_congr_left
    intro q hq
    simp only [hq, true_and]
  · intro p hp
    unfold flaggedEntry
    rw [if_pos (hlast p hp)]
    exact decide_eq_true_iff
  · intro p
    exact ⟨rfl, rfl, rfl, rfl⟩
  · intro t h1 h2 h3 h4
    unfold timeoutWindow DEFAULT_TIMEOUTS
    rw [List.find?_cons_of_neg _ (by simp [Ne.symm h1]),
      List.find?_cons_of_neg _ (by simp [Ne.symm h2]),
      List.find?_cons_of_neg _ (by simp [Ne.symm h3]),
      List.find?_cons_of_neg _ (by simp [Ne.symm h4])]
    rfl

/-- Witness for C4: at time 601000 on three records — an open record whose
last message was a CLARIFY updated at 0 (age > 10 min), an open REQUEST
record (age < 30 min) and a `done` record — exactly the first is flagged and
timed out. -/
theorem checkTimeouts_correct_witness :
    (checkTimeouts 601000 [(str "k1", convClarifyOpen), (str "k2", convReqOpen),
        (str "k3", convDoneOld)]).1 = [str "k1"] ∧
    (checkTimeouts 601000 [(str "k1", convClarifyOpen), (str "k2", convReqOpen),
        (str "k3", convDoneOld)]).2 =
      [timedConv 601000 (str "k1", convClarifyOpen),
       (str "k2", convReqOpen), (str "k3", convDoneOld)] := by
  have h := checkTimeouts_correct 601000
    [(str "k1", convClarifyOpen), (str "k2", convReqOpen), (str "k3", convDoneOld)]
    (by decide) (by decide)
  constructor
  · rw [h.1]
    decide
  · rw [h.2.1]
    decide

/-! ## Round-trip infrastructure (C1): code-block, trim, line structure -/

theorem tryBlockAt_build (body : Str) (hne : body ≠ []) (hnb : ∀ c ∈ body, c ≠ '`') :
    tryBlockAt ('`' :: '`' :: '`' :: (body ++ ['`', '`', '`'])) = some body := by
  have htake : (body ++ ['`', '`', '`']).takeWhile (fun c => decide (c ≠ '`')) = body := by
    rw [List.takeWhile_append_of_pos (by intro a ha; simpa using hnb a ha),
      List.takeWhile_cons_of_neg (by decide)]
    simp
  unfold tryBlockAt
  dsimp only
  rw [if_pos ⟨rfl, rfl, rfl⟩, htake, List.drop_left, if_pos ⟨hne, rfl⟩]

theorem findBlock_build (body : Str) (hne : body ≠ []) (hnb : ∀ c ∈ body, c ≠ '`') :
    findBlock ('`' :: '`' :: '`' :: (body ++ ['`', '`', '`'])) = some body := by
  conv_lhs => unfold findBlock
  rw [tryBlockAt_build body hne hnb]

theorem jsTrim_wrap (s : Str) (hne : s ≠ [])
    (hh : ∀ c, s.head? = some c → jsIsSpace c = false)
    (hl : ∀ c, s.getLast? = some c → jsIsSpace c = false) :
    jsTrim ('\n' :: s ++ ['\n']) = s := by
  match s, hne with
  | a :: t, _ =>
    have ha : jsIsSpace a = false := hh a rfl
    have h1 : ('\n' :: (a :: t) ++ ['\n']).dropWhile jsIsSpace = (a :: t) ++ ['\n'] := by
      rw [List.cons_append, List.dropWhile_cons_of_pos (by decide), List.cons_append,
        List.dropWhile_cons_of_neg (by simp [ha])]
    unfold jsTrim
    rw [h1]
    have hrev : ((a :: t) ++ ['\n']).reverse = '\n' :: (a :: t).reverse := by
      simp
    rw [hrev, List.dropWhile_cons_of_pos (by decide)]
    match hrv : (a :: t).reverse with
    | [] => simp at hrv
    | b :: rb =>
      have hb : (a :: t).getLast? = some b := by
        rw [List.getLast?_eq_head?_reverse, hrv]
        rfl
      rw [List.dropWhile_cons_of_neg (by simp [hl b hb])]
      rw [← hrv, List.reverse_reverse]

theorem splitLines_no_nl (l : Str) (h : ∀ c ∈ l, c ≠ '\n') : splitLines l = [l] := by
  induction l with
  | nil => rfl
  | cons c t ih =>
    unfold splitLines
    rw [if_neg (h c (List.mem_cons_self _ _)), ih (fun d hd => h d (List.mem_cons_of_mem _ hd))]

theorem splitLines_append_nl (l rest : Str) (h : ∀ c ∈ l, c ≠ '\n') :
    splitLines (l ++ '\n' :: rest) = l :: splitLines rest := by
  induction l with
  | nil =>
    show splitLines ('\n' :: rest) = [] :: splitLines rest
    conv_lhs => unfold splitLines
    rw [if_pos rfl]
  | cons c t ih =>
    show splitLines (c :: (t ++ '\n' :: rest)) = (c :: t) :: splitLines rest
    conv_lhs => unfold splitLines
    rw [if_neg (h c (List.mem_cons_self _ _)),
      ih (fun d hd => h d (List.mem_cons_of_mem _ hd))]

theorem splitLines_joinLines (ls : List Str) (hne : ls ≠ [])
    (h : ∀ l ∈ ls, ∀ c ∈ l, c ≠ '\n') :
    splitLines (joinLines ls) = ls := by
  induction ls with
  | nil => exact absurd rfl hne
  | cons l rest ih =>
    match rest with
    | [] =>
      show splitLines l = [l]
      exact splitLines_no_nl l (h l (List.mem_cons_self _ _))
    | l2 :: rest2 =>
      show splitLines (l ++ '\n' :: joinLines (l2 :: rest2)) = l :: (l2 :: rest2)
      rw [splitLines_append_nl l _ (h l (List.mem_cons_self _ _)),
        ih (by simp) (fun l' hl' => h l' (List.mem_cons_of_mem _ hl'))]

theorem joinLines_ne_nil_chars (ls : List Str) (hc : ∀ l ∈ ls, ∀ c ∈ l, c ≠ '`') :
    ∀ c ∈ joinLines ls, c ≠ '`' := by
  induction ls with
  | nil => intro c hcm; cases hcm
  | cons l rest ih =>
    match rest with
    | [] => exact hc l (List.mem_cons_self _ _)
    | l2 :: rest2 =>
      intro c hcm
      rcases List.mem_append.mp hcm with h1 | h2
      · exact hc l (List.mem_cons_self _ _) c h1
      · rcases List.mem_cons.mp h2 with rfl | h3
        · decide
        · exact ih (fun l' hl' => hc l' (List.mem_cons_of_mem _ hl')) c h3

theorem joinLines_head? (c : Char) (t : Str) (ls : List Str) :
    (joinLines ((c :: t) :: ls)).head? = some c := by
  match ls with
  | [] => rfl
  | l2 :: rest2 => rfl

theorem joinLines_ne_nil (ls : List Str) (l : Str) (hne : l ≠ []) :
    joinLines (ls ++ [l]) ≠ [] := by
  match ls with
  | [] => exact hne
  | a :: rest =>
    have hjoin : joinLines (a :: (rest ++ [l])) = a ++ '\n' :: joinLines (rest ++ [l]) := by
      match rest with
      | [] => rfl
      | _ :: _ => rfl
    rw [List.cons_append, hjoin]
    simp

theorem joinLines_getLast? (ls : List Str) (l : Str) (hne : l ≠ []) :
    (joinLines (ls ++ [l])).getLast? = l.getLast? := by
  induction ls with
  | nil => rfl
  | cons a rest ih =>
    have hjoin : joinLines ((a :: rest) ++ [l]) = a ++ '\n' :: joinLines (rest ++ [l]) := by
      match rest with
      | [] => rfl
      | _ :: _ => rfl
    rw [hjoin, List.getLast?_append_of_ne_nil _ (by simp),
      show ('\n' :: joinLines (rest ++ [l])) = ['\n'] ++ joinLines (rest ++ [l]) from rfl,
      List.getLast?_append_of_ne_nil _ (joinLines_ne_nil rest l hne), ih]

theorem headerMatch_build (ty «to» : Str)
    (htyne : ty ≠ []) (htyw : ∀ c ∈ ty, jsIsWordChar c = true)
    (htone : «to» ≠ []) (htosp : ∀ c ∈ «to», jsIsSpace c = false) :
    headerMatch ('[' :: (ty ++ (' ' :: '→' :: ' ' :: '@' :: («to» ++ [']'])))) =
      some (ty, «to») := by
  have htake : (ty ++ (' ' :: '→' :: ' ' :: '@' :: («to» ++ [']']))).takeWhile jsIsWordChar
      = ty := by
    rw [List.takeWhile_append_of_pos htyw, List.takeWhile_cons_of_neg (by decide)]
    simp
  unfold headerMatch
  dsimp only
  rw [if_pos rfl, htake, if_neg (by simp [htyne]), List.drop_left,
    List.dropWhile_cons_of_pos (by decide), List.dropWhile_cons_of_neg (by decide)]
  dsimp only
  rw [if_pos rfl, List.dropWhile_cons_of_pos (by decide),
    List.dropWhile_cons_of_neg (by decide)]
  dsimp only
  rw [if_pos rfl,
    if_pos ⟨List.getLast?_concat _,
      by rw [List.dropLast_concat]; exact htone,
      by rw [List.dropLast_concat]; exact htosp⟩,
    List.dropLast_concat]

theorem kvMatch_build (k v : Str) (hk : k ≠ []) (hka : ∀ c ∈ k, jsIsAlpha c = true)
    (hv1 : ∀ c ∈ v, jsIsLineTerm c = false)
    (hv2 : ∀ c, v.head? = some c → jsIsSpace c = false) :
    kvMatch (k ++ ':' :: ' ' :: v) = some (k, v) := by
  have htake : (k ++ ':' :: ' ' :: v).takeWhile jsIsAlpha = k := by
    rw [List.takeWhile_append_of_pos hka, List.takeWhile_cons_of_neg (by decide)]
    simp
  have hvdrop : (' ' :: v).dropWhile jsIsSpace = v := by
    rw [List.dropWhile_cons_of_pos (by decide)]
    match v with
    | [] => rfl
    | c :: t => rw [List.dropWhile_cons_of_neg (by simp [hv2 c rfl])]
  unfold kvMatch
  dsimp only
  rw [htake, if_neg (by simp [hk]), List.drop_left]
  dsimp only
  rw [if_pos rfl, hvdrop, if_pos hv1]

theorem fieldLoop_kv_aux (pairs : List (Str × Str)) :
    ∀ (r : FieldAcc) (k v : Str),
    (∀ p ∈ pairs, kvMatch (p.1 ++ ':' :: ' ' :: p.2) = some (p.1, p.2)) →
    fieldLoop r (some (k, [v])) (pairs.map (fun p => p.1 ++ ':' :: ' ' :: p.2)) =
      pairs.foldl (fun r p => saveField r (jsToLower p.1) p.2) (saveField r k v) := by
  induction pairs with
  | nil =>
    intro r k v _
    show saveField r k (joinLines [v]) = saveField r k v
    rfl
  | cons p ps ih =>
    intro r k v h
    show fieldLoop r (some (k, [v])) ((p.1 ++ ':' :: ' ' :: p.2) ::
      ps.map (fun p => p.1 ++ ':' :: ' ' :: p.2)) = _
    unfold fieldLoop
    rw [h p (List.mem_cons_self _ _)]
    simp only
    show fieldLoop (saveField r k (joinLines [v])) (some (jsToLower p.1, [p.2]))
        (ps.map (fun p => p.1 ++ ':' :: ' ' :: p.2)) = _
    rw [show joinLines [v] = v from rfl,
      ih (saveField r k v) (jsToLower p.1) p.2 (fun q hq => h q (List.mem_cons_of_mem _ hq))]
    rfl

theorem fieldLoop_kv (pairs : List (Str × Str))
    (h : ∀ p ∈ pairs, kvMatch (p.1 ++ ':' :: ' ' :: p.2) = some (p.1, p.2)) :
    fieldLoop {} none (pairs.map (fun p => p.1 ++ ':' :: ' ' :: p.2)) =
      pairs.foldl (fun r p => saveField r (jsToLower p.1) p.2) {} := by
  match pairs with
  | [] => rfl
  | p :: ps =>
    show fieldLoop {} none ((p.1 ++ ':' :: ' ' :: p.2) ::
      ps.map (fun p => p.1 ++ ':' :: ' ' :: p.2)) = _
    unfold fieldLoop
    rw [h p (List.mem_cons_self _ _)]
    simp only
    show fieldLoop {} (some (jsToLower p.1, [p.2]))
        (ps.map (fun p => p.1 ++ ':' :: ' ' :: p.2)) = _
    rw [fieldLoop_kv_aux ps {} (jsToLower p.1) p.2
      (fun q hq => h q (List.mem_cons_of_mem _ hq))]
    rfl

/-! ## Wire-safety consequences and the master parse lemma (C1) -/

theorem wireSafe_truthy {v : Str} (h : wireSafe v) : truthy (some v) = true := by
  simp [truthy, h.1]

theorem char_eq_of_toNat {c : Char} {n : Nat} (hc : c.toNat = n) (d : Char)
    (hd : d.toNat = n) : c = d := char_toNat_inj (hc.trans hd.symm)

theorem wireSafe_char_not_space {v : Str} (h : wireSafe v) {c : Char} (hc : c ∈ v)
    (hne : c ≠ ' ') : jsIsSpace c = false := by
  obtain ⟨-, hr, -, -⟩ := h
  obtain ⟨h1, h2, -⟩ := hr c hc
  have h32 : c.toNat ≠ 32 := fun he => hne (char_eq_of_toNat he ' ' rfl)
  simp only [jsIsSpace, Bool.or_eq_false_iff, decide_eq_false_iff_not]
  omega

theorem wireSafe_head_not_space {v : Str} (h : wireSafe v) :
    ∀ c, v.head? = some c → jsIsSpace c = false := by
  intro c hc
  refine wireSafe_char_not_space h (List.mem_of_mem_head? hc) ?_
  intro he
  exact h.2.2.1 (he ▸ hc)

theorem wireSafe_getLast_not_space {v : Str} (h : wireSafe v) :
    ∀ c, v.getLast? = some c → jsIsSpace c = false := by
  intro c hc
  rw [← List.head?_reverse] at hc
  refine wireSafe_char_not_space h (List.mem_reverse.mp (List.mem_of_mem_head? hc)) ?_
  intro he
  rw [List.head?_reverse] at hc
  exact h.2.2.2 (he ▸ hc)

theorem wireSafe_lineTerm {v : Str} (h : wireSafe v) :
    ∀ c ∈ v, jsIsLineTerm c = false ∧ c ≠ '`' := by
  intro c hc
  obtain ⟨h1, h2, h3⟩ := h.2.1 c hc
  refine ⟨?_, h3⟩
  simp only [jsIsLineTerm, Bool.or_eq_false_iff, decide_eq_false_iff_not]
  omega

theorem dropWhile_eq_self_of_head {l : Str} {p : Char → Bool}
    (h : ∀ c, l.head? = some c → p c = false) : l.dropWhile p = l := by
  match l with
  | [] => rfl
  | c :: t => rw [List.dropWhile_cons_of_neg (by simp [h c rfl])]

theorem wireSafe_trim {v : Str} (h : wireSafe v) : jsTrim v = v := by
  unfold jsTrim
  rw [dropWhile_eq_self_of_head (wireSafe_head_not_space h)]
  rw [dropWhile_eq_self_of_head ?_, List.reverse_reverse]
  intro c hc
  rw [List.head?_reverse] at hc
  exact wireSafe_getLast_not_space h c hc

theorem recipientSafe_not_space {v : Str} (h : recipientSafe v) :
    ∀ c ∈ v, jsIsSpace c = false := by
  intro c hc
  obtain ⟨h1, h2, -⟩ := h.2 c hc
  simp only [jsIsSpace, Bool.or_eq_false_iff, decide_eq_false_iff_not]
  omega

theorem recipientSafe_chars {v : Str} (h : recipientSafe v) :
    ∀ c ∈ v, c ≠ '\n' ∧ c ≠ '`' := by
  intro c hc
  obtain ⟨h1, h2, h3⟩ := h.2 c hc
  refine ⟨?_, h3⟩
  intro he
  subst he
  simp at h1

theorem flatten_mapNl (ls : List Str) (hne : ls ≠ []) :
    (ls.map (fun l => l ++ ['\n'])).flatten = joinLines ls ++ ['\n'] := by
  induction ls with
  | nil => exact absurd rfl hne
  | cons l rest ih =>
    match rest with
    | [] => simp [joinLines]
    | l2 :: rest2 =>
      show (l ++ ['\n']) ++ ((l2 :: rest2).map (fun l => l ++ ['\n'])).flatten =
        (l ++ '\n' :: joinLines (l2 :: rest2)) ++ ['\n']
      rw [ih (by simp)]
      simp

/-- The master C1 lemma: parsing the canonical wire text of a valid header and
wire-safe key–value lines reaches `finalize` on the accumulator obtained by
saving every pair in order. -/
theorem parse_mkWire (ty «to» : Str) (pairs : List (Str × Str))
    (htyv : VALID_TYPES.contains ty = true)
    (htyne : ty ≠ []) (htyw : ∀ c ∈ ty, jsIsWordChar c = true)
    (htyg : ∀ c ∈ ty, c ≠ '\n' ∧ c ≠ '`')
    (hto : recipientSafe «to»)
    (hpne : pairs ≠ [])
    (hkeys : ∀ p ∈ pairs, p.1 ≠ [] ∧ (∀ c ∈ p.1, jsIsAlpha c = true))
    (hvals : ∀ p ∈ pairs, p.2 ≠ [] ∧ (∀ c ∈ p.2, jsIsLineTerm c = false ∧ c ≠ '`') ∧
      (∀ c, p.2.head? = some c → jsIsSpace c = false) ∧
      (∀ c, p.2.getLast? = some c → jsIsSpace c = false)) :
    parse (mkWire ty «to» pairs) =
      finalize ty «to» (mkWire ty «to» pairs)
        (pairs.foldl (fun r p => saveField r (jsToLower p.1) p.2) {}) := by
  have halpha_nl : ∀ c : Char, jsIsAlpha c = true → c ≠ '\n' ∧ c ≠ '`' := by
    intro c hcv
    simp only [jsIsAlpha, Bool.or_eq_true, Bool.and_eq_true, decide_eq_true_eq] at hcv
    constructor <;> intro he <;> subst he <;> simp at hcv
  have hlines_nonl : ∀ l ∈ ('[' :: (ty ++ (' ' :: '→' :: ' ' :: '@' :: («to» ++ [']'])))) ::
      pairs.map (fun p => p.1 ++ ':' :: ' ' :: p.2), ∀ c ∈ l, c ≠ '\n' ∧ c ≠ '`' := by
    intro l hl c hc
    rcases List.mem_cons.mp hl with rfl | hl2
    · rcases List.mem_cons.mp hc with rfl | hc2
      · decide
      · rcases List.mem_append.mp hc2 with h1 | h2
        · exact htyg c h1
        · rcases List.mem_cons.mp h2 with rfl | h3
          · decide
          · rcases List.mem_cons.mp h3 with rfl | h4
            · decide
            · rcases List.mem_cons.mp h4 with rfl | h5
              · decide
              · rcases List.mem_cons.mp h5 with rfl | h6
                · decide
                · rcases List.mem_append.mp h6 with h7 | h8
                  · exact recipientSafe_chars hto c h7
                  · rcases List.mem_singleton.mp h8 with rfl
                    decide
    · obtain ⟨p, hp, rfl⟩ := List.mem_map.mp hl2
      rcases List.mem_append.mp hc with h1 | h2
      · exact halpha_nl c ((hkeys p hp).2 c h1)
      · rcases List.mem_cons.mp h2 with rfl | h3
        · decide
        · rcases List.mem_cons.mp h3 with rfl | h4
          · decide
          · have hv := ((hvals p hp).2.1 c h4)
            refine ⟨?_, hv.2⟩
            intro he
            subst he
            simp [jsIsLineTerm] at hv
  have hshape : mkWire ty «to» pairs =
      '`' :: '`' :: '`' ::
        (('\n' :: joinLines (('[' :: (ty ++ (' ' :: '→' :: ' ' :: '@' :: («to» ++ [']'])))) ::
          pairs.map (fun p => p.1 ++ ':' :: ' ' :: p.2)) ++ ['\n']) ++ ['`', '`', '`']) := by
    unfold mkWire
    rw [show (pairs.map (fun p => (p.1 ++ ':' :: ' ' :: p.2) ++ ['\n'])) =
      ((pairs.map (fun p => p.1 ++ ':' :: ' ' :: p.2)).map (fun l => l ++ ['\n'])) from by
        rw [List.map_map]; rfl]
    rw [flatten_mapNl _ (by simp [hpne])]
    have hjoin : joinLines (('[' :: (ty ++ (' ' :: '→' :: ' ' :: '@' :: («to» ++ [']'])))) ::
        pairs.map (fun p => p.1 ++ ':' :: ' ' :: p.2)) =
        ('[' :: (ty ++ (' ' :: '→' :: ' ' :: '@' :: («to» ++ [']'])))) ++
          '\n' :: joinLines (pairs.map (fun p => p.1 ++ ':' :: ' ' :: p.2)) := by
      match hp2 : pairs.map (fun p => p.1 ++ ':' :: ' ' :: p.2) with
      | [] => exact absurd (List.map_eq_nil_iff.mp hp2) hpne
      | l2 :: rest2 => rw [hp2]; rfl
    rw [hjoin]
    simp [List.append_assoc]
  have hJchars : ∀ c ∈ joinLines (('[' :: (ty ++ (' ' :: '→' :: ' ' :: '@' ::
      («to» ++ [']'])))) :: pairs.map (fun p => p.1 ++ ':' :: ' ' :: p.2)), c ≠ '`' :=
    joinLines_ne_nil_chars _ (fun l hl c hc => (hlines_nonl l hl c hc).2)
  have hbody_ne : (('\n' :: joinLines (('[' :: (ty ++ (' ' :: '→' :: ' ' :: '@' ::
      («to» ++ [']'])))) :: pairs.map (fun p => p.1 ++ ':' :: ' ' :: p.2))) ++ ['\n']) ≠ [] := by
    simp
  have hbody_nb : ∀ c ∈ (('\n' :: joinLines (('[' :: (ty ++ (' ' :: '→' :: ' ' :: '@' ::
      («to» ++ [']'])))) :: pairs.map (fun p => p.1 ++ ':' :: ' ' :: p.2))) ++ ['\n']),
      c ≠ '`' := by
    intro c hc
    rcases List.mem_append.mp hc with h1 | h2
    · rcases List.mem_cons.mp h1 with rfl | h3
      · decide
      · exact hJchars c h3
    · rcases List.mem_singleton.mp h2 with rfl
      decide
  have hJhead : (joinLines (('[' :: (ty ++ (' ' :: '→' :: ' ' :: '@' ::
      («to» ++ [']'])))) :: pairs.map (fun p => p.1 ++ ':' :: ' ' :: p.2))).head? =
      some '[' := joinLines_head? '[' _ _
  have hJne : joinLines (('[' :: (ty ++ (' ' :: '→' :: ' ' :: '@' ::
      («to» ++ [']'])))) :: pairs.map (fun p => p.1 ++ ':' :: ' ' :: p.2)) ≠ [] := by
    intro he
    rw [he] at hJhead
    exact Option.noConfusion hJhead
  have hJh : ∀ c, (joinLines (('[' :: (ty ++ (' ' :: '→' :: ' ' :: '@' ::
      («to» ++ [']'])))) :: pairs.map (fun p => p.1 ++ ':' :: ' ' :: p.2))).head? = some c →
      jsIsSpace c = false := by
    intro c hc
    rw [hJhead] at hc
    cases hc
    decide
  have hlast_line : ∀ l ∈ ('[' :: (ty ++ (' ' :: '→' :: ' ' :: '@' :: («to» ++ [']'])))) ::
      pairs.map (fun p => p.1 ++ ':' :: ' ' :: p.2),
      ∀ c, l.getLast? = some c → jsIsSpace c = false := by
    intro l hl c hc
    rcases List.mem_cons.mp hl with rfl | hl2
    · have hform : ('[' :: (ty ++ (' ' :: '→' :: ' ' :: '@' :: («to» ++ [']'])))) =
          ('[' :: (ty ++ (' ' :: '→' :: ' ' :: '@' :: «to»))) ++ [']'] := by
        simp
      rw [hform, List.getLast?_concat] at hc
      cases hc
      decide
    · obtain ⟨p, hp, rfl⟩ := List.mem_map.mp hl2
      have hform : (p.1 ++ ':' :: ' ' :: p.2) = (p.1 ++ [':', ' ']) ++ p.2 := by
        simp
      rw [hform, List.getLast?_append_of_ne_nil _ (hvals p hp).1] at hc
      exact (hvals p hp).2.2.2 c hc
  have hJl : ∀ c, (joinLines (('[' :: (ty ++ (' ' :: '→' :: ' ' :: '@' ::
      («to» ++ [']'])))) :: pairs.map (fun p => p.1 ++ ':' :: ' ' :: p.2))).getLast? =
      some c → jsIsSpace c = false := by
    intro c hc
    obtain ⟨ls, l, hconcat⟩ := List.eq_nil_or_concat (('[' :: (ty ++ (' ' :: '→' :: ' ' ::
      '@' :: («to» ++ [']'])))) :: pairs.map (fun p => p.1 ++ ':' :: ' ' :: p.2))
        |>.resolve_left (List.cons_ne_nil _ _)
    rw [List.concat_eq_append] at hconcat
    have hlmem : l ∈ ('[' :: (ty ++ (' ' :: '→' :: ' ' :: '@' :: («to» ++ [']'])))) ::
        pairs.map (fun p => p.1 ++ ':' :: ' ' :: p.2) := by
      rw [hconcat]
      exact List.mem_append.mpr (Or.inr (List.mem_singleton.mpr rfl))
    have hlne : l ≠ [] := by
      rcases List.mem_cons.mp hlmem with rfl | hl2
      · exact List.cons_ne_nil _ _
      · obtain ⟨p, hp, rfl⟩ := List.mem_map.mp hl2
        simp
    rw [hconcat, joinLines_getLast? ls l hlne] at hc
    exact hlast_line l hlmem c hc
  rw [hshape]
  conv_lhs => unfold parse
  rw [if_neg (by exact List.cons_ne_nil _ _)]
  rw [findBlock_build _ (by exact List.cons_ne_nil _ _) hbody_nb]
  dsimp only
  rw [jsTrim_wrap _ hJne hJh hJl]
  rw [splitLines_joinLines _ (List.cons_ne_nil _ _)
    (fun l hl c hc => (hlines_nonl l hl c hc).1)]
  dsimp only
  rw [headerMatch_build ty «to» htyne htyw hto.1 (recipientSafe_not_space hto)]
  dsimp only
  rw [if_pos htyv]
  rw [fieldLoop_kv pairs (fun p hp => kvMatch_build p.1 p.2 (hkeys p hp).1 (hkeys p hp).2
    (fun c hc => ((hvals p hp).2.1 c hc).1) (hvals p hp).2.2.1)]

/-! ## Value-side facts for the round trip (C1) -/

theorem jsTrim_eq_self {v : Str}
    (hh : ∀ c, v.head? = some c → jsIsSpace c = false)
    (hl : ∀ c, v.getLast? = some c → jsIsSpace c = false) : jsTrim v = v := by
  unfold jsTrim
  rw [dropWhile_eq_self_of_head hh]
  rw [dropWhile_eq_self_of_head ?_, List.reverse_reverse]
  intro c hc
  rw [List.head?_reverse] at hc
  exact hl c hc

theorem wireSafe_val {v : Str} (h : wireSafe v) :
    v ≠ [] ∧ (∀ c ∈ v, jsIsLineTerm c = false ∧ c ≠ '`') ∧
    (∀ c, v.head? = some c → jsIsSpace c = false) ∧
    (∀ c, v.getLast? = some c → jsIsSpace c = false) :=
  ⟨h.1, wireSafe_lineTerm h, wireSafe_head_not_space h, wireSafe_getLast_not_space h⟩

theorem all_chars_val {v : Str} (hne : v ≠ [])
    (h : ∀ c ∈ v, jsIsLineTerm c = false ∧ c ≠ '`' ∧ jsIsSpace c = false) :
    v ≠ [] ∧ (∀ c ∈ v, jsIsLineTerm c = false ∧ c ≠ '`') ∧
    (∀ c, v.head? = some c → jsIsSpace c = false) ∧
    (∀ c, v.getLast? = some c → jsIsSpace c = false) := by
  refine ⟨hne, fun c hc => ⟨(h c hc).1, (h c hc).2.1⟩, ?_, ?_⟩
  · intro c hc
    exact (h c (List.mem_of_mem_head? hc)).2.2
  · intro c hc
    rw [← List.head?_reverse] at hc
    exact (h c (List.mem_reverse.mp (List.mem_of_mem_head? hc))).2.2

theorem genId_val (f gen : Str) (hg : genSafe gen) :
    generateRequestId f gen ≠ [] ∧
    (∀ c ∈ generateRequestId f gen, jsIsLineTerm c = false ∧ c ≠ '`') ∧
    (∀ c, (generateRequestId f gen).head? = some c → jsIsSpace c = false) ∧
    (∀ c, (generateRequestId f gen).getLast? = some c → jsIsSpace c = false) := by
  have hclass : ∀ c ∈ generateRequestId f gen,
      (0x61 ≤ c.toNat ∧ c.toNat ≤ 0x7a) ∨ (0x30 ≤ c.toNat ∧ c.toNat ≤ 0x39) ∨
      c.toNat = 0x2d := by
    intro c hc
    unfold generateRequestId at hc
    rcases List.mem_append.mp hc with h1 | h2
    · have := (List.mem_filter.mp h1).2
      simp only [decide_eq_true_eq] at this
      tauto
    · rcases List.mem_cons.mp h2 with rfl | h3
      · right; right; rfl
      · rcases hg c h3 with h | h
        · exact Or.inl h
        · exact Or.inr (Or.inl h)
  refine all_chars_val ?_ ?_
  · unfold generateRequestId
    simp
  · intro c hc
    have h3 := hclass c hc
    refine ⟨?_, ?_, ?_⟩
    · simp only [jsIsLineTerm, Bool.or_eq_false_iff, decide_eq_false_iff_not]
      omega
    · intro he
      subst he
      simp at h3
    · simp only [jsIsSpace, Bool.or_eq_false_iff, decide_eq_false_iff_not]
      omega

theorem intToStr_ne_nil (i : Int) : intToStr i ≠ [] := by
  unfold intToStr
  split
  · simp
  · exact natToStr_ne_nil _

theorem intToStr_chars (i : Int) : ∀ c ∈ intToStr i,
    jsIsDigit c = true ∨ c = '-' := by
  intro c hc
  unfold intToStr at hc
  split at hc
  · rcases List.mem_cons.mp hc with rfl | h2
    · exact Or.inr rfl
    · exact Or.inl (natToStr_all_digit _ c h2)
  · exact Or.inl (natToStr_all_digit _ c hc)

theorem depth_val (a b : Int) :
    (intToStr a ++ '/' :: intToStr b) ≠ [] ∧
    (∀ c ∈ intToStr a ++ '/' :: intToStr b, jsIsLineTerm c = false ∧ c ≠ '`') ∧
    (∀ c, (intToStr a ++ '/' :: intToStr b).head? = some c → jsIsSpace c = false) ∧
    (∀ c, (intToStr a ++ '/' :: intToStr b).getLast? = some c → jsIsSpace c = false) := by
  have hclass : ∀ c ∈ intToStr a ++ '/' :: intToStr b,
      jsIsDigit c = true ∨ c = '-' ∨ c = '/' := by
    intro c hc
    rcases List.mem_append.mp hc with h1 | h2
    · rcases intToStr_chars a c h1 with h | h
      · exact Or.inl h
      · exact Or.inr (Or.inl h)
    · rcases List.mem_cons.mp h2 with rfl | h3
      · exact Or.inr (Or.inr rfl)
      · rcases intToStr_chars b c h3 with h | h
        · exact Or.inl h
        · exact Or.inr (Or.inl h)
  refine all_chars_val (by simp) ?_
  intro c hc
  have h3 := hclass c hc
  have h4 : (0x30 ≤ c.toNat ∧ c.toNat ≤ 0x39) ∨ c.toNat = 0x2d ∨ c.toNat = 0x2f := by
    rcases h3 with h | rfl | rfl
    · simp only [jsIsDigit, Bool.and_eq_true, decide_eq_true_eq] at h
      exact Or.inl h
    · right; left; rfl
    · right; right; rfl
  refine ⟨?_, ?_, ?_⟩
  · simp only [jsIsLineTerm, Bool.or_eq_false_iff, decide_eq_false_iff_not]
    omega
  · intro he
    subst he
    simp at h4
  · simp only [jsIsSpace, Bool.or_eq_false_iff, decide_eq_false_iff_not]
    omega

theorem finalize_fields {ty o raw : Str} {acc : FieldAcc}
    (h1 : truthy acc.«from» = true) (h2 : truthy acc.requestId = true)
    (h3 : ¬(ty = str "REQUEST" ∧ truthy acc.task = false))
    (h4 : ¬(ty = str "RESPONSE" ∧ truthy acc.result = false ∧ truthy acc.status = false))
    (h5 : ¬(ty = str "CLARIFY" ∧ truthy acc.question = false))
    (h6 : ¬(ty = str "HANDOFF" ∧ truthy acc.task = false))
    (h7 : ¬(ty = str "BROADCAST" ∧ truthy acc.message = false)) :
    ∃ m, finalize ty o raw acc = some m ∧ m.type = ty ∧ m.«to» = o ∧
      m.«from» = acc.«from» ∧ m.requestId = acc.requestId ∧ m.task = acc.task ∧
      m.status = acc.status ∧ m.result = acc.result ∧ m.question = acc.question ∧
      m.message = acc.message := by
  unfold finalize
  rw [if_neg (by simp [h1, h2]), if_neg h3, if_neg h4, if_neg h5, if_neg h6, if_neg h7]
  exact ⟨_, rfl, rfl, rfl, rfl, rfl, rfl, rfl, rfl, rfl, rfl⟩

theorem truthy_of_ne_nil {v : Str} (h : v ≠ []) : truthy (some v) = true := by
  simp [truthy, h]

/-! ## Builder wire shape (C1) -/

theorem optSeg_none (lbl : String) : optSeg lbl none = [] := rfl

theorem optSeg_some (lbl : String) {v : Str} (h : v ≠ []) :
    optSeg lbl (some v) = str lbl ++ v ++ ['\n'] := by
  unfold optSeg
  rw [truthy_of_ne_nil h, if_pos rfl, Option.getD_some]

theorem optPair_none (label : String) : optPair label none = [] := rfl

theorem optPair_some (label : String) {v : Str} (h : v ≠ []) :
    optPair label (some v) = [(str label, v)] := by
  unfold optPair
  rw [truthy_of_ne_nil h, if_pos rfl, Option.getD_some]

theorem optPair_flatten (label lbl : String) (v : Option Str)
    (hl : str lbl = str label ++ [':', ' ']) :
    ((optPair label v).map (fun p => (p.1 ++ ':' :: ' ' :: p.2) ++ ['\n'])).flatten =
      optSeg lbl v := by
  unfold optPair optSeg
  by_cases h : truthy v = true
  · rw [if_pos h, if_pos h]
    simp [hl, List.append_assoc]
  · rw [if_neg h, if_neg h]
    rfl

theorem pairs_all_append {P : Str × Str → Prop} {A B : List (Str × Str)}
    (hA : ∀ p ∈ A, P p) (hB : ∀ p ∈ B, P p) : ∀ p ∈ A ++ B, P p := by
  intro p hp
  rcases List.mem_append.mp hp with h | h
  · exact hA p h
  · exact hB p h

theorem pairs_all_opt {P : Str × Str → Prop} {label : String} {v : Option Str}
    (h : ∀ w, v = some w → w ≠ [] → P (str label, w)) : ∀ p ∈ optPair label v, P p := by
  intro p hp
  unfold optPair at hp
  by_cases htr : truthy v = true
  · rw [if_pos htr] at hp
    rcases List.mem_singleton.mp hp with rfl
    match v, htr, h with
    | some w, htr, h =>
      refine h w rfl ?_
      simpa [truthy] using htr
  · rw [if_neg htr] at hp
    cases hp

theorem foldl_optPair_proj {α : Type} (proj : FieldAcc → α) (label : String)
    (v : Option Str) (a : FieldAcc)
    (hk : ∀ r w, proj (saveField r (jsToLower (str label)) w) = proj r) :
    proj ((optPair label v).foldl (fun r p => saveField r (jsToLower p.1) p.2) a) =
      proj a := by
  unfold optPair
  split
  · exact hk a _
  · rfl

theorem buildRequest_wire (o f t gen : Str)
    (requestId context callback priority : Option Str) (depth : Option DepthPair)
    (ho : o ≠ []) (hf : f ≠ []) (ht : t ≠ [])
    (hd : (depth.getD ⟨1, 5⟩).current ≠ (depth.getD ⟨1, 5⟩).max) :
    buildRequest (some o) (some f) requestId (some t) context depth callback priority gen =
      .ok (mkWire (str "REQUEST") o
        (reqPairs f (ridOf requestId f gen) t context (depthStr (depth.getD ⟨1, 5⟩))
          callback priority)) := by
  unfold buildRequest
  rw [show validateRequired [("to", some o), ("from", some f), ("task", some t)] "REQUEST"
      = .ok () from by simp [validateRequired, truthy, ho, hf, ht]]
  dsimp only
  rw [if_neg hd]
  refine congrArg Except.ok ?_
  unfold reqPairs mkWire
  rw [List.map_append, List.map_append, List.map_append, List.map_append,
    List.flatten_append, List.flatten_append, List.flatten_append, List.flatten_append,
    optPair_flatten "Context" "Context: " context rfl,
    optPair_flatten "Callback" "Callback: " callback rfl,
    optPair_flatten "Priority" "Priority: " priority rfl]
  simp only [Option.getD_some, depthLine, depthStr, ridOf, List.map_cons, List.map_nil,
    List.flatten_cons, List.flatten_nil, List.append_assoc, List.cons_append,
    List.nil_append, List.append_nil]
  rfl

theorem buildResponse_wire (o f r : Str) (status result context : Option Str)
    (depth : Option DepthPair)
    (ho : o ≠ []) (hf : f ≠ []) (hr : r ≠ [])
    (hsr : ¬(truthy status = false ∧ truthy result = false)) :
    buildResponse (some o) (some f) (some r) status result context depth =
      .ok (mkWire (str "RESPONSE") o
        (respPairs f r status result context (depthStr (depth.getD ⟨1, 5⟩)))) := by
  unfold buildResponse
  rw [show validateRequired [("to", some o), ("from", some f), ("requestId", some r)]
      "RESPONSE" = .ok () from by simp [validateRequired, truthy, ho, hf, hr]]
  dsimp only
  rw [if_neg hsr]
  refine congrArg Except.ok ?_
  unfold respPairs mkWire
  rw [List.map_append, List.map_append, List.map_append, List.map_append,
    List.flatten_append, List.flatten_append, List.flatten_append, List.flatten_append,
    optPair_flatten "Status" "Status: " status rfl,
    optPair_flatten "Result" "Result: " result rfl,
    optPair_flatten "Context" "Context: " context rfl]
  simp only [Option.getD_some, depthLine, depthStr, List.map_cons, List.map_nil,
    List.flatten_cons, List.flatten_nil, List.append_assoc, List.cons_append,
    List.nil_append, List.append_nil]
  rfl

theorem buildClarify_wire (o f r q : Str) (depth : Option DepthPair)
    (ho : o ≠ []) (hf : f ≠ []) (hr : r ≠ []) (hq : q ≠ [])
    (hd : (depth.getD ⟨1, 5⟩).current ≠ (depth.getD ⟨1, 5⟩).max) :
    buildClarify (some o) (some f) (some r) (some q) depth =
      .ok (mkWire (str "CLARIFY") o (clarPairs f r q (depthStr (depth.getD ⟨1, 5⟩)))) := by
  unfold buildClarify
  rw [show validateRequired [("to", some o), ("from", some f), ("requestId", some r),
      ("question", some q)] "CLARIFY" = .ok () from by
        simp [validateRequired, truthy, ho, hf, hr, hq]]
  dsimp only
  rw [if_neg hd]
  refine congrArg Except.ok ?_
  unfold clarPairs mkWire
  simp only [Option.getD_some, depthLine, depthStr, List.map_cons, List.map_nil,
    List.flatten_cons, List.flatten_nil, List.append_assoc, List.cons_append,
    List.nil_append, List.append_nil]
  rfl

theorem buildHandoff_wire (o f r t : Str) (context callback priority : Option Str)
    (depth : Option DepthPair)
    (ho : o ≠ []) (hf : f ≠ []) (hr : r ≠ []) (ht : t ≠ [])
    (hd : (depth.getD ⟨1, 5⟩).current ≠ (depth.getD ⟨1, 5⟩).max) :
    buildHandoff (some o) (some f) (some r) (some t) context depth callback priority =
      .ok (mkWire (str "HANDOFF") o
        (reqPairs f r t context (depthStr (depth.getD ⟨1, 5⟩)) callback priority)) := by
  unfold buildHandoff
  rw [show validateRequired [("to", some o), ("from", some f), ("requestId", some r),
      ("task", some t)] "HANDOFF" = .ok () from by
        simp [validateRequired, truthy, ho, hf, hr, ht]]
  dsimp only
  rw [if_neg hd]
  refine congrArg Except.ok ?_
  unfold reqPairs mkWire
  rw [List.map_append, List.map_append, List.map_append, List.map_append,
    List.flatten_append, List.flatten_append, List.flatten_append, List.flatten_append,
    optPair_flatten "Context" "Context: " context rfl,
    optPair_flatten "Callback" "Callback: " callback rfl,
    optPair_flatten "Priority" "Priority: " priority rfl]
  simp only [Option.getD_some, depthLine, depthStr, List.map_cons, List.map_nil,
    List.flatten_cons, List.flatten_nil, List.append_assoc, List.cons_append,
    List.nil_append, List.append_nil]
  rfl

theorem buildBroadcast_wire (f msg gen : Str) (requestId context : Option Str)
    (depth : Option DepthPair) (hf : f ≠ []) (hm : msg ≠ []) :
    buildBroadcast (some f) requestId (some msg) context depth gen =
      .ok (mkWire (str "BROADCAST") (str "all")
        (bcastPairs f (ridOf requestId f gen) msg context
          (depthStr (depth.getD ⟨1, 5⟩)))) := by
  unfold buildBroadcast
  rw [show validateRequired [("from", some f), ("message", some msg)] "BROADCAST" = .ok ()
      from by simp [validateRequired, truthy, hf, hm]]
  dsimp only
  refine congrArg Except.ok ?_
  unfold bcastPairs mkWire
  rw [List.map_append, List.map_append, List.flatten_append, List.flatten_append,
    optPair_flatten "Context" "Context: " context rfl]
  simp only [Option.getD_some, depthLine, depthStr, ridOf, List.map_cons, List.map_nil,
    List.flatten_cons, List.flatten_nil, List.append_assoc, List.cons_append,
    List.nil_append, List.append_nil]
  rfl

theorem keyOK (k : String) (h : str k ≠ [] ∧ ∀ c ∈ str k, jsIsAlpha c = true) (v : Str) :
    (str k, v).1 ≠ [] ∧ ∀ c ∈ (str k, v).1, jsIsAlpha c = true := h

theorem reqPairs_proj {α : Type} (proj : FieldAcc → α) (f rid t : Str)
    (context : Option Str) (ds : Str) (callback priority : Option Str)
    (hC : ∀ r w, proj (saveField r (jsToLower (str "Context")) w) = proj r)
    (hK : ∀ r w, proj (saveField r (jsToLower (str "Callback")) w) = proj r)
    (hP : ∀ r w, proj (saveField r (jsToLower (str "Priority")) w) = proj r)
    (hD : ∀ r w, proj (saveField r (jsToLower (str "Depth")) w) = proj r) :
    proj ((reqPairs f rid t context ds callback priority).foldl
        (fun r p => saveField r (jsToLower p.1) p.2) {}) =
      proj (List.foldl (fun r p => saveField r (jsToLower p.1) p.2) {}
        [(str "From", f), (str "RequestId", rid), (str "Task", t)]) := by
  unfold reqPairs
  rw [List.foldl_append, List.foldl_append, List.foldl_append, List.foldl_append,
    foldl_optPair_proj proj "Priority" priority _ hP,
    foldl_optPair_proj proj "Callback" callback _ hK,
    show ∀ a : FieldAcc, proj (List.foldl (fun r p => saveField r (jsToLower p.1) p.2) a
      [(str "Depth", ds)]) = proj a from fun a => hD a ds,
    foldl_optPair_proj proj "Context" context _ hC]

theorem foldl_ctx_depth_proj {α : Type} (proj : FieldAcc → α) (a : FieldAcc)
    (context : Option Str) (ds : Str)
    (hC : ∀ r w, proj (saveField r (jsToLower (str "Context")) w) = proj r)
    (hD : ∀ r w, proj (saveField r (jsToLower (str "Depth")) w) = proj r) :
    proj (List.foldl (fun r p => saveField r (jsToLower p.1) p.2) a
      (optPair "Context" context ++ [(str "Depth", ds)])) = proj a := by
  rw [List.foldl_append,
    show ∀ b : FieldAcc, proj (List.foldl (fun r p => saveField r (jsToLower p.1) p.2) b
      [(str "Depth", ds)]) = proj b from fun b => hD b ds,
    foldl_optPair_proj proj "Context" context _ hC]

theorem parse_buildRequest (o f t gen : Str)
    (requestId context callback priority : Option Str) (depth : Option DepthPair)
    (ho : recipientSafe o) (hf : wireSafe f) (ht : wireSafe t) (hgen : genSafe gen)
    (hrid : ∀ v, requestId = some v → wireSafe v)
    (hctx : ∀ v, context = some v → wireSafe v)
    (hcb : ∀ v, callback = some v → wireSafe v)
    (hpr : ∀ v, priority = some v → wireSafe v)
    (hd : (depth.getD ⟨1, 5⟩).current ≠ (depth.getD ⟨1, 5⟩).max) :
    ∃ out m,
      buildRequest (some o) (some f) requestId (some t) context depth callback priority gen
        = .ok out ∧ parse out = some m ∧
      m.type = str "REQUEST" ∧ m.«to» = o ∧ m.«from» = some f ∧
      m.requestId = some (ridOf requestId f gen) ∧ m.task = some t := by
  have hrpack : ridOf requestId f gen ≠ [] ∧
      (∀ c ∈ ridOf requestId f gen, jsIsLineTerm c = false ∧ c ≠ '`') ∧
      (∀ c, (ridOf requestId f gen).head? = some c → jsIsSpace c = false) ∧
      (∀ c, (ridOf requestId f gen).getLast? = some c → jsIsSpace c = false) := by
    unfold ridOf
    by_cases hq : truthy requestId = true
    · rw [if_pos hq]
      match requestId, hq, hrid with
      | some rr, hq, hrid => exact wireSafe_val (hrid rr rfl)
      | none, hq, _ => exact absurd hq (by simp [truthy])
    · rw [if_neg hq]
      exact genId_val f gen hgen
  have hkeys : ∀ p ∈ reqPairs f (ridOf requestId f gen) t context
      (depthStr (depth.getD ⟨1, 5⟩)) callback priority,
      p.1 ≠ [] ∧ ∀ c ∈ p.1, jsIsAlpha c = true := by
    unfold reqPairs
    refine pairs_all_append (pairs_all_append (pairs_all_append
      (pairs_all_append ?_ (pairs_all_opt ?_)) ?_) (pairs_all_opt ?_)) (pairs_all_opt ?_)
    · intro p hp
      simp only [List.mem_cons, List.not_mem_nil, or_false] at hp
      rcases hp with rfl | rfl | rfl
      · exact keyOK "From" (by decide) _
      · exact keyOK "RequestId" (by decide) _
      · exact keyOK "Task" (by decide) _
    · exact fun w _ _ => keyOK "Context" (by decide) w
    · intro p hp
      simp only [List.mem_singleton] at hp
      subst hp
      exact keyOK "Depth" (by decide) _
    · exact fun w _ _ => keyOK "Callback" (by decide) w
    · exact fun w _ _ => keyOK "Priority" (by decide) w
  have hvals : ∀ p ∈ reqPairs f (ridOf requestId f gen) t context
      (depthStr (depth.getD ⟨1, 5⟩)) callback priority,
      p.2 ≠ [] ∧ (∀ c ∈ p.2, jsIsLineTerm c = false ∧ c ≠ '`') ∧
      (∀ c, p.2.head? = some c → jsIsSpace c = false) ∧
      (∀ c, p.2.getLast? = some c → jsIsSpace c = false) := by
    unfold reqPairs
    refine pairs_all_append (pairs_all_append (pairs_all_append
      (pairs_all_append ?_ (pairs_all_opt ?_)) ?_) (pairs_all_opt ?_)) (pairs_all_opt ?_)
    · intro p hp
      simp only [List.mem_cons, List.not_mem_nil, or_false] at hp
      rcases hp with rfl | rfl | rfl
      · exact wireSafe_val hf
      · exact hrpack
      · exact wireSafe_val ht
    · exact fun w hw _ => wireSafe_val (hctx w hw)
    · intro p hp
      simp only [List.mem_singleton] at hp
      subst hp
      exact depth_val (depth.getD ⟨1, 5⟩).current (depth.getD ⟨1, 5⟩).max
    · exact fun w hw _ => wireSafe_val (hcb w hw)
    · exact fun w hw _ => wireSafe_val (hpr w hw)
  have hparse := parse_mkWire (str "REQUEST") o
    (reqPairs f (ridOf requestId f gen) t context (depthStr (depth.getD ⟨1, 5⟩))
      callback priority)
    (by decide) (by decide) (by decide) (by decide) ho
    (by unfold reqPairs; simp) hkeys hvals
  have hfrom : FieldAcc.«from» ((reqPairs f (ridOf requestId f gen) t context
      (depthStr (depth.getD ⟨1, 5⟩)) callback priority).foldl
        (fun r p => saveField r (jsToLower p.1) p.2) {}) = some (jsTrim f) :=
    (reqPairs_proj FieldAcc.«from» _ _ _ _ _ _ _
      (fun r w => rfl) (fun r w => rfl) (fun r w => rfl) (fun r w => rfl)).trans rfl
  have hridp : FieldAcc.requestId ((reqPairs f (ridOf requestId f gen) t context
      (depthStr (depth.getD ⟨1, 5⟩)) callback priority).foldl
        (fun r p => saveField r (jsToLower p.1) p.2) {}) =
      some (jsTrim (ridOf requestId f gen)) :=
    (reqPairs_proj FieldAcc.requestId _ _ _ _ _ _ _
      (fun r w => rfl) (fun r w => rfl) (fun r w => rfl) (fun r w => rfl)).trans rfl
  have htaskp : FieldAcc.task ((reqPairs f (ridOf requestId f gen) t context
      (depthStr (depth.getD ⟨1, 5⟩)) callback priority).foldl
        (fun r p => saveField r (jsToLower p.1) p.2) {}) = some (jsTrim t) :=
    (reqPairs_proj FieldAcc.task _ _ _ _ _ _ _
      (fun r w => rfl) (fun r w => rfl) (fun r w => rfl) (fun r w => rfl)).trans rfl
  have hjf : jsTrim f = f := wireSafe_trim hf
  have hjt : jsTrim t = t := wireSafe_trim ht
  have hjr : jsTrim (ridOf requestId f gen) = ridOf requestId f gen :=
    jsTrim_eq_self hrpack.2.2.1 hrpack.2.2.2
  have ht1 : truthy (FieldAcc.«from» ((reqPairs f (ridOf requestId f gen) t context
      (depthStr (depth.getD ⟨1, 5⟩)) callback priority).foldl
        (fun r p => saveField r (jsToLower p.1) p.2) {})) = true := by
    rw [hfrom, hjf]
    exact truthy_of_ne_nil hf.1
  have ht2 : truthy (FieldAcc.requestId ((reqPairs f (ridOf requestId f gen) t context
      (depthStr (depth.getD ⟨1, 5⟩)) callback priority).foldl
        (fun r p => saveField r (jsToLower p.1) p.2) {})) = true := by
    rw [hridp, hjr]
    exact truthy_of_ne_nil hrpack.1
  obtain ⟨m, hm, hmty, hmto, hmfrom, hmrid, hmtask, -, -, -, -⟩ :=
    @finalize_fields (str "REQUEST") o
      (mkWire (str "REQUEST") o (reqPairs f (ridOf requestId f gen) t context
        (depthStr (depth.getD ⟨1, 5⟩)) callback priority)) _ ht1 ht2
      (by rintro ⟨-, hcon⟩
          rw [htaskp, hjt, truthy_of_ne_nil ht.1] at hcon
          cases hcon)
      (fun h => absurd h.1 (by decide)) (fun h => absurd h.1 (by decide))
      (fun h => absurd h.1 (by decide)) (fun h => absurd h.1 (by decide))
  refine ⟨_, m, buildRequest_wire o f t gen requestId context callback priority depth
    ho.1 hf.1 ht.1 hd, ?_, hmty, hmto, ?_, ?_, ?_⟩
  · rw [hparse]
    exact hm
  · rw [hmfrom, hfrom, hjf]
  · rw [hmrid, hridp, hjr]
  · rw [hmtask, htaskp, hjt]

theorem parse_buildHandoff (o f r t : Str)
    (context callback priority : Option Str) (depth : Option DepthPair)
    (ho : recipientSafe o) (hf : wireSafe f) (hr : wireSafe r) (ht : wireSafe t)
    (hctx : ∀ v, context = some v → wireSafe v)
    (hcb : ∀ v, callback = some v → wireSafe v)
    (hpr : ∀ v, priority = some v → wireSafe v)
    (hd : (depth.getD ⟨1, 5⟩).current ≠ (depth.getD ⟨1, 5⟩).max) :
    ∃ out m,
      buildHandoff (some o) (some f) (some r) (some t) context depth callback priority
        = .ok out ∧ parse out = some m ∧
      m.type = str "HANDOFF" ∧ m.«to» = o ∧ m.«from» = some f ∧
      m.requestId = some r ∧ m.task = some t := by
  have hkeys : ∀ p ∈ reqPairs f r t context (depthStr (depth.getD ⟨1, 5⟩))
      callback priority, p.1 ≠ [] ∧ ∀ c ∈ p.1, jsIsAlpha c = true := by
    unfold reqPairs
    refine pairs_all_append (pairs_all_append (pairs_all_append
      (pairs_all_append ?_ (pairs_all_opt ?_)) ?_) (pairs_all_opt ?_)) (pairs_all_opt ?_)
    · intro p hp
      simp only [List.mem_cons, List.not_mem_nil, or_false] at hp
      rcases hp with rfl | rfl | rfl
      · exact keyOK "From" (by decide) _
      · exact keyOK "RequestId" (by decide) _
      · exact keyOK "Task" (by decide) _
    · exact fun w _ _ => keyOK "Context" (by decide) w
    · intro p hp
      simp only [List.mem_singleton] at hp
      subst hp
      exact keyOK "Depth" (by decide) _
    · exact fun w _ _ => keyOK "Callback" (by decide) w
    · exact fun w _ _ => keyOK "Priority" (by decide) w
  have hvals : ∀ p ∈ reqPairs f r t context (depthStr (depth.getD ⟨1, 5⟩))
      callback priority,
      p.2 ≠ [] ∧ (∀ c ∈ p.2, jsIsLineTerm c = false ∧ c ≠ '`') ∧
      (∀ c, p.2.head? = some c → jsIsSpace c = false) ∧
      (∀ c, p.2.getLast? = some c → jsIsSpace c = false) := by
    unfold reqPairs
    refine pairs_all_append (pairs_all_append (pairs_all_append
      (pairs_all_append ?_ (pairs_all_opt ?_)) ?_) (pairs_all_opt ?_)) (pairs_all_opt ?_)
    · intro p hp
      simp only [List.mem_cons, List.not_mem_nil, or_false] at hp
      rcases hp with rfl | rfl | rfl
      · exact wireSafe_val hf
      · exact wireSafe_val hr
      · exact wireSafe_val ht
    · exact fun w hw _ => wireSafe_val (hctx w hw)
    · intro p hp
      simp only [List.mem_singleton] at hp
      subst hp
      exact depth_val (depth.getD ⟨1, 5⟩).current (depth.getD ⟨1, 5⟩).max
    · exact fun w hw _ => wireSafe_val (hcb w hw)
    · exact fun w hw _ => wireSafe_val (hpr w hw)
  have hparse := parse_mkWire (str "HANDOFF") o
    (reqPairs f r t context (depthStr (depth.getD ⟨1, 5⟩)) callback priority)
    (by decide) (by decide) (by decide) (by decide) ho
    (by unfold reqPairs; simp) hkeys hvals
  have hfrom : FieldAcc.«from» ((reqPairs f r t context
      (depthStr (depth.getD ⟨1, 5⟩)) callback priority).foldl
        (fun r p => saveField r (jsToLower p.1) p.2) {}) = some (jsTrim f) :=
    (reqPairs_proj FieldAcc.«from» _ _ _ _ _ _ _
      (fun r w => rfl) (fun r w => rfl) (fun r w => rfl) (fun r w => rfl)).trans rfl
  have hridp : FieldAcc.requestId ((reqPairs f r t context
      (depthStr (depth.getD ⟨1, 5⟩)) callback priority).foldl
        (fun r p => saveField r (jsToLower p.1) p.2) {}) = some (jsTrim r) :=
    (reqPairs_proj FieldAcc.requestId _ _ _ _ _ _ _
      (fun r w => rfl) (fun r w => rfl) (fun r w => rfl) (fun r w => rfl)).trans rfl
  have htaskp : FieldAcc.task ((reqPairs f r t context
      (depthStr (depth.getD ⟨1, 5⟩)) callback priority).foldl
        (fun r p => saveField r (jsToLower p.1) p.2) {}) = some (jsTrim t) :=
    (reqPairs_proj FieldAcc.task _ _ _ _ _ _ _
      (fun r w => rfl) (fun r w => rfl) (fun r w => rfl) (fun r w => rfl)).trans rfl
  have hjf : jsTrim f = f := wireSafe_trim hf
  have hjt : jsTrim t = t := wireSafe_trim ht
  have hjr : jsTrim r = r := wireSafe_trim hr
  have ht1 : truthy (FieldAcc.«from» ((reqPairs f r t context
      (depthStr (depth.getD ⟨1, 5⟩)) callback priority).foldl
        (fun r p => saveField r (jsToLower p.1) p.2) {})) = true := by
    rw [hfrom, hjf]
    exact truthy_of_ne_nil hf.1
  have ht2 : truthy (FieldAcc.requestId ((reqPairs f r t context
      (depthStr (depth.getD ⟨1, 5⟩)) callback priority).foldl
        (fun r p => saveField r (jsToLower p.1) p.2) {})) = true := by
    rw [hridp, hjr]
    exact truthy_of_ne_nil hr.1
  obtain ⟨m, hm, hmty, hmto, hmfrom, hmrid, hmtask, -, -, -, -⟩ :=
    @finalize_fields (str "HANDOFF") o
      (mkWire (str "HANDOFF") o (reqPairs f r t context
        (depthStr (depth.getD ⟨1, 5⟩)) callback priority)) _ ht1 ht2
      (fun h => absurd h.1 (by decide)) (fun h => absurd h.1 (by decide))
      (fun h => absurd h.1 (by decide))
      (by rintro ⟨-, hcon⟩
          rw [htaskp, hjt, truthy_of_ne_nil ht.1] at hcon
          cases hcon)
      (fun h => absurd h.1 (by decide))
  refine ⟨_, m, buildHandoff_wire o f r t context callback priority depth
    ho.1 hf.1 hr.1 ht.1 hd, ?_, hmty, hmto, ?_, ?_, ?_⟩
  · rw [hparse]
    exact hm
  · rw [hmfrom, hfrom, hjf]
  · rw [hmrid, hridp, hjr]
  · rw [hmtask, htaskp, hjt]

theorem parse_buildClarify (o f r q : Str) (depth : Option DepthPair)
    (ho : recipientSafe o) (hf : wireSafe f) (hr : wireSafe r) (hq : wireSafe q)
    (hd : (depth.getD ⟨1, 5⟩).current ≠ (depth.getD ⟨1, 5⟩).max) :
    ∃ out m,
      buildClarify (some o) (some f) (some r) (some q) depth = .ok out ∧
      parse out = some m ∧
      m.type = str "CLARIFY" ∧ m.«to» = o ∧ m.«from» = some f ∧
      m.requestId = some r ∧ m.question = some q := by
  have hkeys : ∀ p ∈ clarPairs f r q (depthStr (depth.getD ⟨1, 5⟩)),
      p.1 ≠ [] ∧ ∀ c ∈ p.1, jsIsAlpha c = true := by
    intro p hp
    unfold clarPairs at hp
    simp only [List.mem_cons, List.not_mem_nil, or_false] at hp
    rcases hp with rfl | rfl | rfl | rfl
    · exact keyOK "From" (by decide) _
    · exact keyOK "RequestId" (by decide) _
    · exact keyOK "Question" (by decide) _
    · exact keyOK "Depth" (by decide) _
  have hvals : ∀ p ∈ clarPairs f r q (depthStr (depth.getD ⟨1, 5⟩)),
      p.2 ≠ [] ∧ (∀ c ∈ p.2, jsIsLineTerm c = false ∧ c ≠ '`') ∧
      (∀ c, p.2.head? = some c → jsIsSpace c = false) ∧
      (∀ c, p.2.getLast? = some c → jsIsSpace c = false) := by
    intro p hp
    unfold clarPairs at hp
    simp only [List.mem_cons, List.not_mem_nil, or_false] at hp
    rcases hp with rfl | rfl | rfl | rfl
    · exact wireSafe_val hf
    · exact wireSafe_val hr
    · exact wireSafe_val hq
    · exact depth_val (depth.getD ⟨1, 5⟩).current (depth.getD ⟨1, 5⟩).max
  have hparse := parse_mkWire (str "CLARIFY") o
    (clarPairs f r q (depthStr (depth.getD ⟨1, 5⟩)))
    (by decide) (by decide) (by decide) (by decide) ho
    (by unfold clarPairs; simp) hkeys hvals
  have hfrom : FieldAcc.«from» ((clarPairs f r q
      (depthStr (depth.getD ⟨1, 5⟩))).foldl
        (fun r p => saveField r (jsToLower p.1) p.2) {}) = some (jsTrim f) := rfl
  have hridp : FieldAcc.requestId ((clarPairs f r q
      (depthStr (depth.getD ⟨1, 5⟩))).foldl
        (fun r p => saveField r (jsToLower p.1) p.2) {}) = some (jsTrim r) := rfl
  have hqp : FieldAcc.question ((clarPairs f r q
      (depthStr (depth.getD ⟨1, 5⟩))).foldl
        (fun r p => saveField r (jsToLower p.1) p.2) {}) = some (jsTrim q) := rfl
  have hjf : jsTrim f = f := wireSafe_trim hf
  have hjr : jsTrim r = r := wireSafe_trim hr
  have hjq : jsTrim q = q := wireSafe_trim hq
  have ht1 : truthy (FieldAcc.«from» ((clarPairs f r q
      (depthStr (depth.getD ⟨1, 5⟩))).foldl
        (fun r p => saveField r (jsToLower p.1) p.2) {})) = true := by
    rw [hfrom, hjf]
    exact truthy_of_ne_nil hf.1
  have ht2 : truthy (FieldAcc.requestId ((clarPairs f r q
      (depthStr (depth.getD ⟨1, 5⟩))).foldl
        (fun r p => saveField r (jsToLower p.1) p.2) {})) = true := by
    rw [hridp, hjr]
    exact truthy_of_ne_nil hr.1
  obtain ⟨m, hm, hmty, hmto, hmfrom, hmrid, -, -, -, hmq, -⟩ :=
    @finalize_fields (str "CLARIFY") o
      (mkWire (str "CLARIFY") o (clarPairs f r q (depthStr (depth.getD ⟨1, 5⟩)))) _
      ht1 ht2
      (fun h => absurd h.1 (by decide)) (fun h => absurd h.1 (by decide))
      (by rintro ⟨-, hcon⟩
          rw [hqp, hjq, truthy_of_ne_nil hq.1] at hcon
          cases hcon)
      (fun h => absurd h.1 (by decide)) (fun h => absurd h.1 (by decide))
  refine ⟨_, m, buildClarify_wire o f r q depth ho.1 hf.1 hr.1 hq.1 hd,
    ?_, hmty, hmto, ?_, ?_, ?_⟩
  · rw [hparse]
    exact hm
  · rw [hmfrom, hfrom, hjf]
  · rw [hmrid, hridp, hjr]
  · rw [hmq, hqp, hjq]

theorem bcastPairs_proj {α : Type} (proj : FieldAcc → α) (f rid msg : Str)
    (context : Option Str) (ds : Str)
    (hC : ∀ r w, proj (saveField r (jsToLower (str "Context")) w) = proj r)
    (hD : ∀ r w, proj (saveField r (jsToLower (str "Depth")) w) = proj r) :
    proj ((bcastPairs f rid msg context ds).foldl
        (fun r p => saveField r (jsToLower p.1) p.2) {}) =
      proj (List.foldl (fun r p => saveField r (jsToLower p.1) p.2) {}
        [(str "From", f), (str "RequestId", rid), (str "Message", msg)]) := by
  unfold bcastPairs
  rw [List.foldl_append, List.foldl_append,
    show ∀ a : FieldAcc, proj (List.foldl (fun r p => saveField r (jsToLower p.1) p.2) a
      [(str "Depth", ds)]) = proj a from fun a => hD a ds,
    foldl_optPair_proj proj "Context" context _ hC]

theorem parse_buildBroadcast (f msg gen : Str) (requestId context : Option Str)
    (depth : Option DepthPair)
    (hf : wireSafe f) (hm : wireSafe msg) (hgen : genSafe gen)
    (hrid : ∀ v, requestId = some v → wireSafe v)
    (hctx : ∀ v, context = some v → wireSafe v) :
    ∃ out m,
      buildBroadcast (some f) requestId (some msg) context depth gen = .ok out ∧
      parse out = some m ∧
      m.type = str "BROADCAST" ∧ m.«to» = str "all" ∧ m.«from» = some f ∧
      m.requestId = some (ridOf requestId f gen) ∧ m.message = some msg := by
  have hrpack : ridOf requestId f gen ≠ [] ∧
      (∀ c ∈ ridOf requestId f gen, jsIsLineTerm c = false ∧ c ≠ '`') ∧
      (∀ c, (ridOf requestId f gen).head? = some c → jsIsSpace c = false) ∧
      (∀ c, (ridOf requestId f gen).getLast? = some c → jsIsSpace c = false) := by
    unfold ridOf
    by_cases hq : truthy requestId = true
    · rw [if_pos hq]
      match requestId, hq, hrid with
      | some rr, hq, hrid => exact wireSafe_val (hrid rr rfl)
      | none, hq, _ => exact absurd hq (by simp [truthy])
    · rw [if_neg hq]
      exact genId_val f gen hgen
  have hkeys : ∀ p ∈ bcastPairs f (ridOf requestId f gen) msg context
      (depthStr (depth.getD ⟨1, 5⟩)), p.1 ≠ [] ∧ ∀ c ∈ p.1, jsIsAlpha c = true := by
    unfold bcastPairs
    refine pairs_all_append (pairs_all_append ?_ (pairs_all_opt ?_)) ?_
    · intro p hp
      simp only [List.mem_cons, List.not_mem_nil, or_false] at hp
      rcases hp with rfl | rfl | rfl
      · exact keyOK "From" (by decide) _
      · exact keyOK "RequestId" (by decide) _
      · exact keyOK "Message" (by decide) _
    · exact fun w _ _ => keyOK "Context" (by decide) w
    · intro p hp
      simp only [List.mem_singleton] at hp
      subst hp
      exact keyOK "Depth" (by decide) _
  have hvals : ∀ p ∈ bcastPairs f (ridOf requestId f gen) msg context
      (depthStr (depth.getD ⟨1, 5⟩)),
      p.2 ≠ [] ∧ (∀ c ∈ p.2, jsIsLineTerm c = false ∧ c ≠ '`') ∧
      (∀ c, p.2.head? = some c → jsIsSpace c = false) ∧
      (∀ c, p.2.getLast? = some c → jsIsSpace c = false) := by
    unfold bcastPairs
    refine pairs_all_append (pairs_all_append ?_ (pairs_all_opt ?_)) ?_
    · intro p hp
      simp only [List.mem_cons, List.not_mem_nil, or_false] at hp
      rcases hp with rfl | rfl | rfl
      · exact wireSafe_val hf
      · exact hrpack
      · exact wireSafe_val hm
    · exact fun w hw _ => wireSafe_val (hctx w hw)
    · intro p hp
      simp only [List.mem_singleton] at hp
      subst hp
      exact depth_val (depth.getD ⟨1, 5⟩).current (depth.getD ⟨1, 5⟩).max
  have hparse := parse_mkWire (str "BROADCAST") (str "all")
    (bcastPairs f (ridOf requestId f gen) msg context (depthStr (depth.getD ⟨1, 5⟩)))
    (by decide) (by decide) (by decide) (by decide)
    (by unfold recipientSafe; exact ⟨by decide, by decide⟩)
    (by unfold bcastPairs; simp) hkeys hvals
  have hfrom : FieldAcc.«from» ((bcastPairs f (ridOf requestId f gen) msg context
      (depthStr (depth.getD ⟨1, 5⟩))).foldl
        (fun r p => saveField r (jsToLower p.1) p.2) {}) = some (jsTrim f) :=
    (bcastPairs_proj FieldAcc.«from» _ _ _ _ _
      (fun r w => rfl) (fun r w => rfl)).trans rfl
  have hridp : FieldAcc.requestId ((bcastPairs f (ridOf requestId f gen) msg context
      (depthStr (depth.getD ⟨1, 5⟩))).foldl
        (fun r p => saveField r (jsToLower p.1) p.2) {}) =
      some (jsTrim (ridOf requestId f gen)) :=
    (bcastPairs_proj FieldAcc.requestId _ _ _ _ _
      (fun r w => rfl) (fun r w => rfl)).trans rfl
  have hmsgp : FieldAcc.message ((bcastPairs f (ridOf requestId f gen) msg context
      (depthStr (depth.getD ⟨1, 5⟩))).foldl
        (fun r p => saveField r (jsToLower p.1) p.2) {}) = some (jsTrim msg) :=
    (bcastPairs_proj FieldAcc.message _ _ _ _ _
      (fun r w => rfl) (fun r w => rfl)).trans rfl
  have hjf : jsTrim f = f := wireSafe_trim hf
  have hjm : jsTrim msg = msg := wireSafe_trim hm
  have hjr : jsTrim (ridOf requestId f gen) = ridOf requestId f gen :=
    jsTrim_eq_self hrpack.2.2.1 hrpack.2.2.2
  have ht1 : truthy (FieldAcc.«from» ((bcastPairs f (ridOf requestId f gen) msg context
      (depthStr (depth.getD ⟨1, 5⟩))).foldl
        (fun r p => saveField r (jsToLower p.1) p.2) {})) = true := by
    rw [hfrom, hjf]
    exact truthy_of_ne_nil hf.1
  have ht2 : truthy (FieldAcc.requestId ((bcastPairs f (ridOf requestId f gen) msg context
      (depthStr (depth.getD ⟨1, 5⟩))).foldl
        (fun r p => saveField r (jsToLower p.1) p.2) {})) = true := by
    rw [hridp, hjr]
    exact truthy_of_ne_nil hrpack.1
  obtain ⟨m, hm2, hmty, hmto, hmfrom, hmrid, -, -, -, -, hmmsg⟩ :=
    @finalize_fields (str "BROADCAST") (str "all")
      (mkWire (str "BROADCAST") (str "all") (bcastPairs f (ridOf requestId f gen) msg
        context (depthStr (depth.getD ⟨1, 5⟩)))) _ ht1 ht2
      (fun h => absurd h.1 (by decide)) (fun h => absurd h.1 (by decide))
      (fun h => absurd h.1 (by decide)) (fun h => absurd h.1 (by decide))
      (by rintro ⟨-, hcon⟩
          rw [hmsgp, hjm, truthy_of_ne_nil hm.1] at hcon
          cases hcon)
  refine ⟨_, m, buildBroadcast_wire f msg gen requestId context depth hf.1 hm.1,
    ?_, hmty, hmto, ?_, ?_, ?_⟩
  · rw [hparse]
    exact hm2
  · rw [hmfrom, hfrom, hjf]
  · rw [hmrid, hridp, hjr]
  · rw [hmmsg, hmsgp, hjm]

theorem respPairs_proj {α : Type} (proj : FieldAcc → α) (f rid : Str)
    (status result context : Option Str) (ds : Str)
    (hS : ∀ r w, proj (saveField r (jsToLower (str "Status")) w) = proj r)
    (hR : ∀ r w, proj (saveField r (jsToLower (str "Result")) w) = proj r)
    (hC : ∀ r w, proj (saveField r (jsToLower (str "Context")) w) = proj r)
    (hD : ∀ r w, proj (saveField r (jsToLower (str "Depth")) w) = proj r) :
    proj ((respPairs f rid status result context ds).foldl
        (fun r p => saveField r (jsToLower p.1) p.2) {}) =
      proj (List.foldl (fun r p => saveField r (jsToLower p.1) p.2) {}
        [(str "From", f), (str "RequestId", rid)]) := by
  unfold respPairs
  rw [List.foldl_append, List.foldl_append, List.foldl_append, List.foldl_append,
    show ∀ a : FieldAcc, proj (List.foldl (fun r p => saveField r (jsToLower p.1) p.2) a
      [(str "Depth", ds)]) = proj a from fun a => hD a ds,
    foldl_optPair_proj proj "Context" context _ hC,
    foldl_optPair_proj proj "Result" result _ hR,
    foldl_optPair_proj proj "Status" status _ hS]

theorem respPairs_status (f rid : Str) (status result context : Option Str) (ds : Str) :
    FieldAcc.status ((respPairs f rid status result context ds).foldl
        (fun r p => saveField r (jsToLower p.1) p.2) {}) =
      (if truthy status then
        (if VALID_STATUSES.contains (jsTrim (status.getD [])) then
          some (jsTrim (status.getD [])) else none)
       else none) := by
  unfold respPairs
  rw [List.foldl_append, List.foldl_append, List.foldl_append, List.foldl_append,
    show ∀ a : FieldAcc, FieldAcc.status (List.foldl
      (fun r p => saveField r (jsToLower p.1) p.2) a [(str "Depth", ds)]) =
      FieldAcc.status a from fun a => rfl,
    foldl_optPair_proj FieldAcc.status "Context" context _ (fun r w => rfl),
    foldl_optPair_proj FieldAcc.status "Result" result _ (fun r w => rfl)]
  unfold optPair
  by_cases h : truthy status = true
  · rw [if_pos h, if_pos h]
    rfl
  · rw [if_neg h, if_neg h]
    rfl

theorem respPairs_result (f rid : Str) (status result context : Option Str) (ds : Str) :
    FieldAcc.result ((respPairs f rid status result context ds).foldl
        (fun r p => saveField r (jsToLower p.1) p.2) {}) =
      (if truthy result then some (jsTrim (result.getD [])) else none) := by
  unfold respPairs
  rw [List.foldl_append, List.foldl_append, List.foldl_append, List.foldl_append,
    show ∀ a : FieldAcc, FieldAcc.result (List.foldl
      (fun r p => saveField r (jsToLower p.1) p.2) a [(str "Depth", ds)]) =
      FieldAcc.result a from fun a => rfl,
    foldl_optPair_proj FieldAcc.result "Context" context _ (fun r w => rfl)]
  by_cases h : truthy result = true
  · rw [if_pos h]
    conv_lhs => unfold optPair
    rw [if_pos h]
    rfl
  · rw [if_neg h]
    conv_lhs => unfold optPair
    rw [if_neg h]
    exact foldl_optPair_proj FieldAcc.result "Status" status _ (fun r w => rfl)

theorem parse_buildResponse (o f r : Str) (status result context : Option Str)
    (depth : Option DepthPair)
    (ho : recipientSafe o) (hf : wireSafe f) (hr : wireSafe r)
    (hstv : ∀ v, status = some v → wireSafe v ∧ VALID_STATUSES.contains v = true)
    (hresv : ∀ v, result = some v → wireSafe v)
    (hctx : ∀ v, context = some v → wireSafe v)
    (hsr : status ≠ none ∨ result ≠ none) :
    ∃ out m,
      buildResponse (some o) (some f) (some r) status result context depth = .ok out ∧
      parse out = some m ∧
      m.type = str "RESPONSE" ∧ m.«to» = o ∧ m.«from» = some f ∧
      m.requestId = some r ∧ m.status = status ∧ m.result = result := by
  have hkeys : ∀ p ∈ respPairs f r status result context
      (depthStr (depth.getD ⟨1, 5⟩)), p.1 ≠ [] ∧ ∀ c ∈ p.1, jsIsAlpha c = true := by
    unfold respPairs
    refine pairs_all_append (pairs_all_append (pairs_all_append
      (pairs_all_append ?_ (pairs_all_opt ?_)) (pairs_all_opt ?_)) (pairs_all_opt ?_)) ?_
    · intro p hp
      simp only [List.mem_cons, List.not_mem_nil, or_false] at hp
      rcases hp with rfl | rfl
      · exact keyOK "From" (by decide) _
      · exact keyOK "RequestId" (by decide) _
    · exact fun w _ _ => keyOK "Status" (by decide) w
    · exact fun w _ _ => keyOK "Result" (by decide) w
    · exact fun w _ _ => keyOK "Context" (by decide) w
    · intro p hp
      simp only [List.mem_singleton] at hp
      subst hp
      exact keyOK "Depth" (by decide) _
  have hvals : ∀ p ∈ respPairs f r status result context
      (depthStr (depth.getD ⟨1, 5⟩)),
      p.2 ≠ [] ∧ (∀ c ∈ p.2, jsIsLineTerm c = false ∧ c ≠ '`') ∧
      (∀ c, p.2.head? = some c → jsIsSpace c = false) ∧
      (∀ c, p.2.getLast? = some c → jsIsSpace c = false) := by
    unfold respPairs
    refine pairs_all_append (pairs_all_append (pairs_all_append
      (pairs_all_append ?_ (pairs_all_opt ?_)) (pairs_all_opt ?_)) (pairs_all_opt ?_)) ?_
    · intro p hp
      simp only [List.mem_cons, List.not_mem_nil, or_false] at hp
      rcases hp with rfl | rfl
      · exact wireSafe_val hf
      · exact wireSafe_val hr
    · exact fun w hw _ => wireSafe_val (hstv w hw).1
    · exact fun w hw _ => wireSafe_val (hresv w hw)
    · exact fun w hw _ => wireSafe_val (hctx w hw)
    · intro p hp
      simp only [List.mem_singleton] at hp
      subst hp
      exact depth_val (depth.getD ⟨1, 5⟩).current (depth.getD ⟨1, 5⟩).max
  have hparse := parse_mkWire (str "RESPONSE") o
    (respPairs f r status result context (depthStr (depth.getD ⟨1, 5⟩)))
    (by decide) (by decide) (by decide) (by decide) ho
    (by unfold respPairs; simp) hkeys hvals
  have hfrom : FieldAcc.«from» ((respPairs f r status result context
      (depthStr (depth.getD ⟨1, 5⟩))).foldl
        (fun r p => saveField r (jsToLower p.1) p.2) {}) = some (jsTrim f) :=
    (respPairs_proj FieldAcc.«from» _ _ _ _ _ _
      (fun r w => rfl) (fun r w => rfl) (fun r w => rfl) (fun r w => rfl)).trans rfl
  have hridp : FieldAcc.requestId ((respPairs f r status result context
      (depthStr (depth.getD ⟨1, 5⟩))).foldl
        (fun r p => saveField r (jsToLower p.1) p.2) {}) = some (jsTrim r) :=
    (respPairs_proj FieldAcc.requestId _ _ _ _ _ _
      (fun r w => rfl) (fun r w => rfl) (fun r w => rfl) (fun r w => rfl)).trans rfl
  have hjf : jsTrim f = f := wireSafe_trim hf
  have hjr : jsTrim r = r := wireSafe_trim hr
  have hstp : FieldAcc.status ((respPairs f r status result context
      (depthStr (depth.getD ⟨1, 5⟩))).foldl
        (fun r p => saveField r (jsToLower p.1) p.2) {}) = status := by
    rw [respPairs_status]
    match status, hstv with
    | none, _ => rfl
    | some sv, hstv =>
      rw [truthy_of_ne_nil ((hstv sv rfl).1).1, if_pos rfl]
      show (if VALID_STATUSES.contains (jsTrim sv) then some (jsTrim sv) else none) =
        some sv
      rw [wireSafe_trim (hstv sv rfl).1, if_pos (hstv sv rfl).2]
  have hresp : FieldAcc.result ((respPairs f r status result context
      (depthStr (depth.getD ⟨1, 5⟩))).foldl
        (fun r p => saveField r (jsToLower p.1) p.2) {}) = result := by
    rw [respPairs_result]
    match result, hresv with
    | none, _ => rfl
    | some rv, hresv =>
      rw [truthy_of_ne_nil (hresv rv rfl).1, if_pos rfl]
      show some (jsTrim rv) = some rv
      rw [wireSafe_trim (hresv rv rfl)]
  have ht1 : truthy (FieldAcc.«from» ((respPairs f r status result context
      (depthStr (depth.getD ⟨1, 5⟩))).foldl
        (fun r p => saveField r (jsToLower p.1) p.2) {})) = true := by
    rw [hfrom, hjf]
    exact truthy_of_ne_nil hf.1
  have ht2 : truthy (FieldAcc.requestId ((respPairs f r status result context
      (depthStr (depth.getD ⟨1, 5⟩))).foldl
        (fun r p => saveField r (jsToLower p.1) p.2) {})) = true := by
    rw [hridp, hjr]
    exact truthy_of_ne_nil hr.1
  have hone : truthy status = true ∨ truthy result = true := by
    rcases hsr with h | h
    · match status, h, hstv with
      | some sv, _, hstv => exact Or.inl (truthy_of_ne_nil ((hstv sv rfl).1).1)
    · match result, h, hresv with
      | some rv, _, hresv => exact Or.inr (truthy_of_ne_nil (hresv rv rfl).1)
  have hsrB : ¬(truthy status = false ∧ truthy result = false) := by
    rintro ⟨h1, h2⟩
    rcases hone with h | h
    · rw [h1] at h
      cases h
    · rw [h2] at h
      cases h
  obtain ⟨m, hm, hmty, hmto, hmfrom, hmrid, -, hmst, hmres, -, -⟩ :=
    @finalize_fields (str "RESPONSE") o
      (mkWire (str "RESPONSE") o (respPairs f r status result context
        (depthStr (depth.getD ⟨1, 5⟩)))) _ ht1 ht2
      (fun h => absurd h.1 (by decide))
      (by rintro ⟨-, hcon1, hcon2⟩
          rw [hstp] at hcon2
          rw [hresp] at hcon1
          exact hsrB ⟨hcon2, hcon1⟩)
      (fun h => absurd h.1 (by decide)) (fun h => absurd h.1 (by decide))
      (fun h => absurd h.1 (by decide))
  refine ⟨_, m, buildResponse_wire o f r status result context depth
    ho.1 hf.1 hr.1 hsrB, ?_, hmty, hmto, ?_, ?_, ?_, ?_⟩
  · rw [hparse]
    exact hm
  · rw [hmfrom, hfrom, hjf]
  · rw [hmrid, hridp, hjr]
  · rw [hmst, hstp]
  · rw [hmres, hresp]

/-- **C1** — As stated the round-trip claim is false: the builders validate
only that required fields are truthy, so `buildRequest` happily emits a message
for the recipient `"a b"`, while the parser's header regex
`^\[(\w+)\s*→\s*@(\S+)\]$` requires a whitespace-free recipient and rejects
the output: `parse(build(fields))` does not succeed for every accepted field
mapping. -/
theorem parse_build_roundtrip_claim_false :
    ∃ out, buildRequest (some (str "a b")) (some (str "Lotbot")) (some (str "r-1"))
      (some (str "do it")) none none none none (str "x7") = .ok out ∧
      parse out = none :=
  ⟨_, rfl, by decide⟩

/-- **C1** (amended) — For every message type, when the supplied fields are
wire-safe (non-empty printable ASCII without backticks and without leading or
trailing spaces; recipients additionally space-free; a provided status drawn
from the legal status enum; the random id suffix from the nanoid alphabet) and
the depth guard admits the call, the builder succeeds and parsing its output
yields a Message whose `type`, `to`, `from`, `requestId` and type-specific
payload field (`task` for REQUEST/HANDOFF, `question` for CLARIFY,
`status`/`result` for RESPONSE, `message` for BROADCAST) equal the original
field values — with `requestId` the provided one when truthy and otherwise the
auto-generated `generateRequestId(from)`. -/
theorem parse_build_roundtrip :
    (∀ (o f t gen : Str) (requestId context callback priority : Option Str)
        (depth : Option DepthPair),
      recipientSafe o → wireSafe f → wireSafe t → genSafe gen →
      (∀ v, requestId = some v → wireSafe v) →
      (∀ v, context = some v → wireSafe v) →
      (∀ v, callback = some v → wireSafe v) →
      (∀ v, priority = some v → wireSafe v) →
      (depth.getD ⟨1, 5⟩).current ≠ (depth.getD ⟨1, 5⟩).max →
      ∃ out m,
        buildRequest (some o) (some f) requestId (some t) context depth callback
          priority gen = .ok out ∧ parse out = some m ∧
        m.type = str "REQUEST" ∧ m.«to» = o ∧ m.«from» = some f ∧
        m.requestId = some (ridOf requestId f gen) ∧ m.task = some t) ∧
    (∀ (o f r : Str) (status result context : Option Str) (depth : Option DepthPair),
      recipientSafe o → wireSafe f → wireSafe r →
      (∀ v, status = some v → wireSafe v ∧ VALID_STATUSES.contains v = true) →
      (∀ v, result = some v → wireSafe v) →
      (∀ v, context = some v → wireSafe v) →
      status ≠ none ∨ result ≠ none →
      ∃ out m,
        buildResponse (some o) (some f) (some r) status result context depth
          = .ok out ∧ parse out = some m ∧
        m.type = str "RESPONSE" ∧ m.«to» = o ∧ m.«from» = some f ∧
        m.requestId = some r ∧ m.status = status ∧ m.result = result) ∧
    (∀ (o f r q : Str) (depth : Option DepthPair),
      recipientSafe o → wireSafe f → wireSafe r → wireSafe q →
      (depth.getD ⟨1, 5⟩).current ≠ (depth.getD ⟨1, 5⟩).max →
      ∃ out m,
        buildClarify (some o) (some f) (some r) (some q) depth = .ok out ∧
        parse out = some m ∧
        m.type = str "CLARIFY" ∧ m.«to» = o ∧ m.«from» = some f ∧
        m.requestId = some r ∧ m.question = some q) ∧
    (∀ (o f r t : Str) (context callback priority : Option Str)
        (depth : Option DepthPair),
      recipientSafe o → wireSafe f → wireSafe r → wireSafe t →
      (∀ v, context = some v → wireSafe v) →
      (∀ v, callback = some v → wireSafe v) →
      (∀ v, priority = some v → wireSafe v) →
      (depth.getD ⟨1, 5⟩).current ≠ (depth.getD ⟨1, 5⟩).max →
      ∃ out m,
        buildHandoff (some o) (some f) (some r) (some t) context depth callback
          priority = .ok out ∧ parse out = some m ∧
        m.type = str "HANDOFF" ∧ m.«to» = o ∧ m.«from» = some f ∧
        m.requestId = some r ∧ m.task = some t) ∧
    (∀ (f msg gen : Str) (requestId context : Option Str) (depth : Option DepthPair),
      wireSafe f → wireSafe msg → genSafe gen →
      (∀ v, requestId = some v → wireSafe v) →
      (∀ v, context = some v → wireSafe v) →
      ∃ out m,
        buildBroadcast (some f) requestId (some msg) context depth gen = .ok out ∧
        parse out = some m ∧
        m.type = str "BROADCAST" ∧ m.«to» = str "all" ∧ m.«from» = some f ∧
        m.requestId = some (ridOf requestId f gen) ∧ m.message = some msg) :=
  ⟨parse_buildRequest, parse_buildResponse, parse_buildClarify, parse_buildHandoff,
    parse_buildBroadcast⟩

/-- Concrete round trip: a REQUEST built for `@Mantis` from `Lotbot` with an
explicit requestId parses back to the original fields. -/
theorem parse_build_roundtrip_witness :
    ∃ out m,
      buildRequest (some (str "Mantis")) (some (str "Lotbot")) (some (str "r-1"))
        (some (str "Check CLI version")) none none none none (str "x7") = .ok out ∧
      parse out = some m ∧
      m.type = str "REQUEST" ∧ m.«to» = str "Mantis" ∧
      m.«from» = some (str "Lotbot") ∧
      m.requestId = some (ridOf (some (str "r-1")) (str "Lotbot") (str "x7")) ∧
      m.task = some (str "Check CLI version") :=
  parse_build_roundtrip.1 (str "Mantis") (str "Lotbot") (str "Check CLI version")
    (str "x7") (some (str "r-1")) none none none none
    (by unfold recipientSafe; decide)
    (by unfold wireSafe; decide)
    (by unfold wireSafe; decide)
    (by unfold genSafe; decide)
    (fun v hv => by cases hv; unfold wireSafe; decide)
    (fun v hv => Option.noConfusion hv)
    (fun v hv => Option.noConfusion hv)
    (fun v hv => Option.noConfusion hv)
    (by decide)
